import Mathlib

/-!
Verification of the order-management core of the repository: the stock
ledger arithmetic on products, the order state machine, the order
orchestrator (create and cancel), the storage layer transaction and cache
invalidation, and the content-addressed cache key encoding.

Each definition is a shallow embedding of the corresponding Go function.
Machine integer conversions (the uint32 truncation applied inside the
cache key encoders) are modelled with explicit reduction modulo 2 ^ 32;
stock quantities (Go int) are modelled as unbounded integers, since the
stock code performs no intentional wrap-around conversion.  Creation and
update timestamps on products are modelled as a natural number supplied
by the caller (the value of time.Now at the call); timestamps on orders
and users are omitted, as no claim mentions them.
-/

/-- A 128-bit identifier (github.com/google/uuid).  The nil uuid is the
all-zero value.  A well-formed uuid value fits in 16 bytes. -/
structure UUID where
  val : Nat
  deriving DecidableEq

/-- The nil (all-zero) uuid, uuid.Nil in Go. -/
def UUID.nil : UUID := ⟨0⟩

/-- A uuid is well formed when its value fits in 16 bytes. -/
def UUID.wf (u : UUID) : Prop := u.val < 2 ^ 128

/-- Structured reasons of the order validation errors.  In the source an
order validation error is ErrOrderValidation wrapped with a message; the
constructors below carry the information content of each message.  In
particular cannotTransition names the attempted target status and the
current status, as in the messages of Order.Cancel, Order.Confirm and
Order.Complete. -/
inductive OrderValidationReason where
  | userIdRequired
  | atLeastOneItem
  | orderIdRequired
  | productIdRequired
  | quantityMustBePositive
  | snapshotDescriptionRequired
  | cannotTransition (attempted : String) (current : String)
  | invalidStatus (status : String)
  deriving DecidableEq

/-- The error kinds of the domain package (internal/domain/error.go),
with the diagnostic payload each wrapped message carries.
insufficientStock carries the offending product id when the message
names one (the orchestrator pre-check) and none when it does not
(Product.ReserveQuantity), plus the available and requested counts.
storageFailure stands for an opaque database error. -/
inductive Err where
  | userValidation (reason : String)
  | userNotFound
  | productValidation (reason : String)
  | productNotFound (productId : UUID)
  | orderValidation (reason : OrderValidationReason)
  | orderNotFound
  | insufficientStock (productId : Option UUID) (available requested : Int)
  | invalidQuantity
  | storageFailure
  deriving DecidableEq

/-- internal/domain/product.go: the Product entity.  CreatedAt is
omitted; UpdatedAt is kept because the stock operations refresh it. -/
structure Product where
  id : UUID
  description : String
  tags : List String
  quantity : Int
  updatedAt : Nat
  deriving DecidableEq

/-- Product.IsAvailable. -/
def Product.IsAvailable (p : Product) : Bool := p.quantity > 0

/-- Product.ReserveQuantity: fails with ErrInvalidQuantity when the
requested quantity is not positive, with ErrInsufficientStock (naming
requested and available) when the requested quantity exceeds the stock,
and otherwise decrements the stock and refreshes the update timestamp.
The caller keeps its product value untouched on failure, exactly as the
Go method returns before any field assignment. -/
def Product.ReserveQuantity (now : Nat) (quantity : Int) (p : Product) :
    Except Err Product :=
  if quantity ≤ 0 then
    .error .invalidQuantity
  else if p.quantity < quantity then
    .error (.insufficientStock none p.quantity quantity)
  else
    .ok { p with quantity := p.quantity - quantity, updatedAt := now }

/-- Product.RestoreQuantity: fails with ErrInvalidQuantity when the
quantity is not positive, otherwise increments the stock unconditionally
and refreshes the update timestamp. -/
def Product.RestoreQuantity (now : Nat) (quantity : Int) (p : Product) :
    Except Err Product :=
  if quantity ≤ 0 then
    .error .invalidQuantity
  else
    .ok { p with quantity := p.quantity + quantity, updatedAt := now }

/-- One call of the stock ledger: either a reservation or a restoration
of a given amount. -/
inductive StockOp where
  | reserve (quantity : Int)
  | restore (quantity : Int)
  deriving DecidableEq

/-- Execute one stock call against a product, keeping the new state
after a successful call and the old state after a failed one. -/
def applyStockOp (now : Nat) (p : Product) : StockOp → Product
  | .reserve q =>
    match Product.ReserveQuantity now q p with
    | .ok p' => p'
    | .error _ => p
  | .restore q =>
    match Product.RestoreQuantity now q p with
    | .ok p' => p'
    | .error _ => p

/-- Execute a finite sequence of stock calls against a product. -/
def runStockOps (now : Nat) (p : Product) (ops : List StockOp) : Product :=
  ops.foldl (applyStockOp now) p

/-! ### Order domain (internal/domain/order.go)

OrderStatus is a string alias in the source (`type OrderStatus = string`),
so it is modelled as String with the four named constants. -/

abbrev OrderStatus := String

def OrderStatusPending : OrderStatus := "pending"

def OrderStatusConfirmed : OrderStatus := "confirmed"

def OrderStatusCancelled : OrderStatus := "cancelled"

def OrderStatusCompleted : OrderStatus := "completed"

/-- ProductSnapshot: product state captured at order time. -/
structure ProductSnapshot where
  description : String
  tags : List String
  deriving DecidableEq

/-- OrderItem.  CreatedAt is omitted (no claim mentions it). -/
structure OrderItem where
  id : UUID
  orderId : UUID
  productId : UUID
  quantity : Int
  productSnapshot : ProductSnapshot
  deriving DecidableEq

/-- Order.  CreatedAt and UpdatedAt are omitted (no claim mentions
them). -/
structure Order where
  id : UUID
  userId : UUID
  status : OrderStatus
  items : List OrderItem
  deriving DecidableEq

/-- Order.TotalQuantity: sum of the item quantities. -/
def Order.TotalQuantity (o : Order) : Int :=
  (o.items.map (fun it => it.quantity)).sum

/-- Order.CanBeCancelled: true exactly in the pending and confirmed
states. -/
def Order.CanBeCancelled (o : Order) : Bool :=
  o.status = OrderStatusPending || o.status = OrderStatusConfirmed

/-- Order.Cancel: moves a cancellable order to cancelled, otherwise
fails with an order validation error naming the attempted transition
and the current status. -/
def Order.Cancel (o : Order) : Except Err Order :=
  if o.CanBeCancelled then
    .ok { o with status := OrderStatusCancelled }
  else
    .error (.orderValidation (.cannotTransition OrderStatusCancelled o.status))

/-- Order.Confirm: moves a pending order to confirmed, otherwise fails
with an order validation error naming the attempted transition and the
current status. -/
def Order.Confirm (o : Order) : Except Err Order :=
  if o.status = OrderStatusPending then
    .ok { o with status := OrderStatusConfirmed }
  else
    .error (.orderValidation (.cannotTransition OrderStatusConfirmed o.status))

/-- Order.Complete: moves a confirmed order to completed, otherwise
fails with an order validation error naming the attempted transition
and the current status. -/
def Order.Complete (o : Order) : Except Err Order :=
  if o.status = OrderStatusConfirmed then
    .ok { o with status := OrderStatusCompleted }
  else
    .error (.orderValidation (.cannotTransition OrderStatusCompleted o.status))

/-- OrderItem.Validate, including the id defaulting the Go method
performs (a nil item id is replaced by a fresh uuid; the parent order id
was assigned by the caller).  Timestamp defaulting is omitted. -/
def OrderItem.ValidateAssign (freshId : UUID) (it : OrderItem) :
    Except Err OrderItem :=
  let it := if it.id = UUID.nil then { it with id := freshId } else it
  if it.orderId = UUID.nil then
    .error (.orderValidation .orderIdRequired)
  else if it.productId = UUID.nil then
    .error (.orderValidation .productIdRequired)
  else if it.quantity ≤ 0 then
    .error (.orderValidation .quantityMustBePositive)
  else if it.productSnapshot.description = "" then
    .error (.orderValidation .snapshotDescriptionRequired)
  else
    .ok it

/-- The item loop of Order.Validate: each item receives the parent order
id, a fresh uuid (indexed draw from the supply) when its id is nil, and
is validated; the first failure is returned. -/
def validateItemsAssign (freshIds : Nat → UUID) (oid : UUID) (k : Nat) :
    List OrderItem → Except Err (List OrderItem)
  | [] => .ok []
  | it :: rest => do
    let it' ← OrderItem.ValidateAssign (freshIds k) { it with orderId := oid }
    let rest' ← validateItemsAssign freshIds oid (k + 1) rest
    .ok (it' :: rest')

/-- Order.Validate: assigns a fresh id to a nil order id, requires a
user id, defaults an empty status to pending, requires at least one
item, and validates every item (assigning the parent order id and fresh
item ids).  freshIds models the successive uuid.New draws: index 0 is
the order id draw, index k + 1 the draw of item k. -/
def Order.ValidateAssign (freshIds : Nat → UUID) (o : Order) :
    Except Err Order :=
  let o := if o.id = UUID.nil then { o with id := freshIds 0 } else o
  if o.userId = UUID.nil then
    .error (.orderValidation .userIdRequired)
  else
    let o := if o.status = "" then { o with status := OrderStatusPending } else o
    match o.items with
    | [] => .error (.orderValidation .atLeastOneItem)
    | _ :: _ => do
      let items' ← validateItemsAssign freshIds o.id 1 o.items
      .ok { o with items := items' }

/-- CreateOrderItemRequest. -/
structure CreateOrderItemRequest where
  productId : UUID
  quantity : Int
  deriving DecidableEq

/-- CreateOrderItemRequest.Validate. -/
def CreateOrderItemRequest.Validate (r : CreateOrderItemRequest) : Option Err :=
  if r.productId = UUID.nil then
    some (.orderValidation .productIdRequired)
  else if r.quantity ≤ 0 then
    some (.orderValidation .quantityMustBePositive)
  else
    none

/-- CreateOrderRequest. -/
structure CreateOrderRequest where
  userId : UUID
  items : List CreateOrderItemRequest
  deriving DecidableEq

/-- The item loop of CreateOrderRequest.Validate: first failure wins. -/
def validateItemRequests : List CreateOrderItemRequest → Option Err
  | [] => none
  | r :: rest =>
    match r.Validate with
    | some e => some e
    | none => validateItemRequests rest

/-- CreateOrderRequest.Validate. -/
def CreateOrderRequest.Validate (r : CreateOrderRequest) : Option Err :=
  if r.userId = UUID.nil then
    some (.orderValidation .userIdRequired)
  else
    match r.items with
    | [] => some (.orderValidation .atLeastOneItem)
    | _ :: _ => validateItemRequests r.items

/-- UpdateOrderRequest. -/
structure UpdateOrderRequest where
  id : UUID
  status : OrderStatus
  deriving DecidableEq

/-- UpdateOrderRequest.Validate: the id is required and the status must
be one of the four known values. -/
def UpdateOrderRequest.Validate (r : UpdateOrderRequest) : Option Err :=
  if r.id = UUID.nil then
    some (.orderValidation .orderIdRequired)
  else if r.status = OrderStatusPending ∨ r.status = OrderStatusConfirmed ∨
      r.status = OrderStatusCancelled ∨ r.status = OrderStatusCompleted then
    none
  else
    some (.orderValidation (.invalidStatus r.status))

/-! ### Quantity aggregation

CreateOrder and CancelOrder aggregate quantities per distinct product id
with a Go map updated by addition.  The aggregated map is modelled as an
association list in first-occurrence key order. -/

/-- Add a quantity to the entry of a product id, appending a new entry
when the id is not present yet. -/
def addQty (acc : List (UUID × Int)) (pid : UUID) (q : Int) :
    List (UUID × Int) :=
  match acc with
  | [] => [(pid, q)]
  | (p, v) :: t =>
    if p = pid then (p, v + q) :: t else (p, v) :: addQty t pid q

/-- Aggregate (product id, quantity) pairs: duplicate ids sum together,
distinct ids keep their first-occurrence order. -/
def aggregate (pairs : List (UUID × Int)) : List (UUID × Int) :=
  pairs.foldl (fun acc pr => addQty acc pr.1 pr.2) []

/-- Look up the aggregated quantity of a product id. -/
def lookupQty (acc : List (UUID × Int)) (pid : UUID) : Option Int :=
  match acc with
  | [] => none
  | (p, v) :: t => if p = pid then some v else lookupQty t pid

/-- The total quantity a list of pairs requests for one product id. -/
def sumQty (pid : UUID) (pairs : List (UUID × Int)) : Int :=
  ((pairs.filter (fun pr => pr.1 = pid)).map (fun pr => pr.2)).sum

/-! ### Order orchestrator (internal/application/order.go)

The orchestrator is modelled against a World holding the three
collections as row lists.  Its storage collaborators are embedded by
their effect on the World, per the queries the storage layer builds:
a list request with an id allow-list returns the rows whose id is in the
list, in store order, truncated to the normalized limit; an update
statement rewrites every row matching the id.  The caches and injected
database failures of the storage layer are modelled separately in the
storage section below; the orchestrator model runs against collaborators
whose queries succeed. -/

/-- User (internal/domain/user.go); timestamps omitted. -/
structure User where
  id : UUID
  firstName : String
  lastName : String
  age : Int
  isMarried : Bool
  passwordHash : List Nat
  salt : List Nat
  deriving DecidableEq

/-- The persisted collections the orchestrator spans. -/
structure World where
  users : List User
  products : List Product
  orders : List Order
  deriving DecidableEq

/-- First stored product with the given id (the head of the rows a
one-id, limit-one query returns). -/
def World.findProduct (w : World) (pid : UUID) : Option Product :=
  w.products.find? (fun p => p.id = pid)

/-- First stored user with the given id (userStorage.Users with a
one-element id list and limit one). -/
def World.findUser (w : World) (uid : UUID) : Option User :=
  w.users.find? (fun u => u.id = uid)

/-- First stored order with the given id (orderStorage.Orders with a
one-element id list and limit one). -/
def World.findOrder (w : World) (oid : UUID) : Option Order :=
  w.orders.find? (fun o => o.id = oid)

/-- The batch product load of CreateOrder: productStorage.Products with
the id allow-list of the request and a zero limit, which the request
normalization of the storage layer raises to the default limit 10.  The
query therefore returns at most 10 of the matching rows. -/
def World.productsByIds (w : World) (ids : List UUID) : List Product :=
  ((w.products.filter (fun p => ids.contains p.id)).take 10)

/-- productStorage.UpdateProduct restricted to the quantity field, as
the orchestrator issues it: every row matching the id is rewritten with
the new quantity and a fresh update timestamp, then the updated product
is re-read; a vanished id yields ErrProductNotFound. -/
def World.updateProductQuantity (w : World) (pid : UUID) (q : Int)
    (now : Nat) : World × Except Err Product :=
  let w' := { w with
    products := w.products.map (fun p =>
      if p.id = pid then { p with quantity := q, updatedAt := now } else p) }
  match w'.findProduct pid with
  | none => (w', .error (.productNotFound pid))
  | some p => (w', .ok p)

/-- First match of a product id inside an in-memory product list (the
productMap lookup of CreateOrder). -/
def findById (l : List Product) (pid : UUID) : Option Product :=
  l.find? (fun p => p.id = pid)

/-- The existence and sufficiency pre-check loop of CreateOrder: for
each aggregated (product id, quantity) entry, a missing product fails
with ErrProductNotFound naming the id, and a shortfall fails with
ErrInsufficientStock naming the id, the available and the requested
counts.  The loop performs no mutation. -/
def checkProducts (agg : List (UUID × Int)) (loaded : List Product) :
    Option Err :=
  match agg with
  | [] => none
  | (pid, q) :: rest =>
    match findById loaded pid with
    | none => some (.productNotFound pid)
    | some p =>
      if p.quantity < q then
        some (.insufficientStock (some pid) p.quantity q)
      else
        checkProducts rest loaded

/-- The reservation loop of CreateOrder: for each aggregated entry the
in-memory product is reserved and the new quantity is persisted
individually.  Returns the world and in-memory product list after the
performed updates, plus the first error if any.  The missing-id branch
is unreachable when the pre-check passed. -/
def reserveProducts (now : Nat) (w : World) (loaded : List Product) :
    List (UUID × Int) → (World × List Product) × Option Err
  | [] => ((w, loaded), none)
  | (pid, q) :: rest =>
    match findById loaded pid with
    | none => ((w, loaded), some (.productNotFound pid))
    | some p =>
      match Product.ReserveQuantity now q p with
      | .error e => ((w, loaded), some e)
      | .ok p' =>
        let loaded' := loaded.map (fun x => if x.id = pid then p' else x)
        let (w', res) := w.updateProductQuantity pid p'.quantity now
        match res with
        | .error e => ((w', loaded'), some e)
        | .ok _ => reserveProducts now w' loaded' rest

/-- The item construction loop of CreateOrder: one OrderItem per
requested line, embedding a snapshot copied from the loaded product.
The lookup into the in-memory product map cannot miss once the
pre-check passed; a missing entry contributes an empty snapshot (the Go
code would dereference a nil pointer there). -/
def buildOrderItems (loaded : List Product)
    (items : List CreateOrderItemRequest) : List OrderItem :=
  items.map (fun itemReq =>
    let snap :=
      match findById loaded itemReq.productId with
      | some product => ProductSnapshot.mk product.description product.tags
      | none => ProductSnapshot.mk "" []
    { id := UUID.nil, orderId := UUID.nil, productId := itemReq.productId,
      quantity := itemReq.quantity, productSnapshot := snap })

/-- orderAppService.CreateOrder.  Returns the world after the performed
storage writes, and the created order or the first error.  freshIds
models the uuid.New draws of the final order validation. -/
def OrderAppService.CreateOrder (now : Nat) (freshIds : Nat → UUID)
    (w : World) (req : CreateOrderRequest) : World × Except Err Order :=
  match req.Validate with
  | some e => (w, .error e)
  | none =>
    match w.findUser req.userId with
    | none => (w, .error .userNotFound)
    | some _ =>
      let productIds := req.items.map (fun it => it.productId)
      let agg := aggregate (req.items.map (fun it => (it.productId, it.quantity)))
      let loaded := w.productsByIds productIds
      match checkProducts agg loaded with
      | some e => (w, .error e)
      | none =>
        match reserveProducts now w loaded agg with
        | ((w', _), some e) => (w', .error e)
        | ((w', loaded'), none) =>
          let order : Order :=
            { id := UUID.nil, userId := req.userId,
              status := OrderStatusPending,
              items := buildOrderItems loaded' req.items }
          match Order.ValidateAssign freshIds order with
          | .error e => (w', .error e)
          | .ok order' =>
            ({ w' with orders := w'.orders ++ [order'] }, .ok order')

/-- The restoration loop of CancelOrder: for each aggregated entry the
product is re-read; a product that no longer exists is silently
skipped, otherwise the summed quantity is restored in memory and the
new quantity is persisted. -/
def restoreProducts (now : Nat) (w : World) :
    List (UUID × Int) → World × Option Err
  | [] => (w, none)
  | (pid, q) :: rest =>
    match w.findProduct pid with
    | none => restoreProducts now w rest
    | some p =>
      match Product.RestoreQuantity now q p with
      | .error e => (w, some e)
      | .ok p' =>
        let (w', res) := w.updateProductQuantity pid p'.quantity now
        match res with
        | .error e => (w', some e)
        | .ok _ => restoreProducts now w' rest

/-- orderStorage.UpdateOrder as the orchestrator uses it: request
validation, a status update of every row matching the id (a zero row
count fails with ErrOrderNotFound), then a re-read of the order. -/
def World.updateOrderStatus (w : World) (req : UpdateOrderRequest) :
    World × Except Err Order :=
  match req.Validate with
  | some e => (w, .error e)
  | none =>
    if w.orders.any (fun o => o.id = req.id) then
      let w' := { w with
        orders := w.orders.map (fun o =>
          if o.id = req.id then { o with status := req.status } else o) }
      match w'.findOrder req.id with
      | none => (w', .error .orderNotFound)
      | some o => (w', .ok o)
    else
      (w, .error .orderNotFound)

/-- orderAppService.CancelOrder.  Returns the world after the performed
storage writes, and the cancelled order or the first error. -/
def OrderAppService.CancelOrder (now : Nat) (w : World) (orderId : UUID) :
    World × Except Err Order :=
  match w.findOrder orderId with
  | none => (w, .error .orderNotFound)
  | some order =>
    if ¬order.CanBeCancelled then
      (w, .error (.orderValidation
        (.cannotTransition OrderStatusCancelled order.status)))
    else
      let agg := aggregate (order.items.map (fun it => (it.productId, it.quantity)))
      match restoreProducts now w agg with
      | (w', some e) => (w', .error e)
      | (w', none) =>
        match order.Cancel with
        | .error e => (w', .error e)
        | .ok cancelled =>
          w'.updateOrderStatus { id := cancelled.id, status := cancelled.status }

/-! ### Cache key encoding

The CacheKey methods of the three list requests build a byte buffer
from the request fields and return its sha256 digest (CacheKey is
[sha256.Size]byte).  The model below is the byte buffer fed to the
digest: requests fed equal buffers receive equal keys, and requests fed
different buffers receive different keys up to a hash collision.  A Go
string enters the buffer as its byte sequence, so a tag or status
string is modelled directly as a byte list; uint32 conversions are
explicit reductions modulo 2 ^ 32. -/

/-- The byte sequence of a Go string. -/
abbrev ByteStr := List Nat

/-- Little-endian byte expansion of a natural number to a fixed
width. -/
def natLEBytes : Nat → Nat → List Nat
  | _, 0 => []
  | n, k + 1 => n % 256 :: natLEBytes (n / 256) k

/-- Big-endian byte expansion of a natural number to a fixed width. -/
def natBEBytes (n k : Nat) : List Nat :=
  (natLEBytes n k).reverse

/-- binary.BigEndian.AppendUint32 of uint32(i): the four big-endian
bytes of i reduced modulo 2 ^ 32. -/
def u32 (i : Int) : List Nat :=
  natBEBytes (i % (2 ^ 32 : Int)).toNat 4

/-- The 16 raw bytes of a uuid (id[:] in the source). -/
def UUID.bytes (u : UUID) : List Nat :=
  natBEBytes u.val 16

/-- The availability filter byte: 1 for true, 0 for false, 2 for nil. -/
def availBytes : Option Bool → List Nat
  | some true => [1]
  | some false => [0]
  | none => [2]

/-- Clamping of the limit: a non-positive limit becomes 10, a limit
above 100 becomes 100. -/
def clampLimit (l : Int) : Int :=
  if l ≤ 0 then 10 else if 100 < l then 100 else l

/-- Clamping of the offset: a negative offset becomes 0. -/
def clampOffset (o : Int) : Int :=
  if o < 0 then 0 else o

/-- GetUsersRequest (internal/domain/user.go). -/
structure GetUsersRequest where
  Ids : List UUID
  Limit : Int
  Offset : Int
  deriving DecidableEq

/-- GetUsersRequest.Validate: the request after limit and offset
clamping. -/
def GetUsersRequest.Validate (r : GetUsersRequest) : GetUsersRequest :=
  { r with Limit := clampLimit r.Limit, Offset := clampOffset r.Offset }

/-- The byte buffer GetUsersRequest.CacheKey feeds to sha256: the
length-prefixed id list, then limit and offset as uint32. -/
def GetUsersRequest.CacheKeyBytes (r : GetUsersRequest) : List Nat :=
  u32 r.Ids.length ++ (r.Ids.map UUID.bytes).flatten ++
    u32 r.Limit ++ u32 r.Offset

/-- GetProductsRequest (internal/domain/product.go); tag strings are
represented by their byte sequences. -/
structure GetProductsRequest where
  Ids : List UUID
  Tags : List ByteStr
  Available : Option Bool
  Limit : Int
  Offset : Int
  deriving DecidableEq

/-- GetProductsRequest.Validate: the request after limit and offset
clamping. -/
def GetProductsRequest.Validate (r : GetProductsRequest) : GetProductsRequest :=
  { r with Limit := clampLimit r.Limit, Offset := clampOffset r.Offset }

/-- The byte buffer GetProductsRequest.CacheKey feeds to sha256: the
length-prefixed id list, the count-prefixed concatenation of the tag
bytes, the availability byte, then limit and offset as uint32. -/
def GetProductsRequest.CacheKeyBytes (r : GetProductsRequest) : List Nat :=
  u32 r.Ids.length ++ (r.Ids.map UUID.bytes).flatten ++
    u32 r.Tags.length ++ r.Tags.flatten ++
    availBytes r.Available ++
    u32 r.Limit ++ u32 r.Offset

/-- GetOrdersRequest (internal/domain/order.go); status strings are
represented by their byte sequences. -/
structure GetOrdersRequest where
  Ids : List UUID
  UserIds : List UUID
  Statuses : List ByteStr
  Limit : Int
  Offset : Int
  deriving DecidableEq

/-- GetOrdersRequest.Validate: the request after limit and offset
clamping. -/
def GetOrdersRequest.Validate (r : GetOrdersRequest) : GetOrdersRequest :=
  { r with Limit := clampLimit r.Limit, Offset := clampOffset r.Offset }

/-- The byte buffer GetOrdersRequest.CacheKey feeds to sha256: the
length-prefixed id and user id lists, the count-prefixed concatenation
of the status bytes, then limit and offset as uint32. -/
def GetOrdersRequest.CacheKeyBytes (r : GetOrdersRequest) : List Nat :=
  u32 r.Ids.length ++ (r.Ids.map UUID.bytes).flatten ++
    u32 r.UserIds.length ++ (r.UserIds.map UUID.bytes).flatten ++
    u32 r.Statuses.length ++ r.Statuses.flatten ++
    u32 r.Limit ++ u32 r.Offset

/-! ### Storage layer (internal/repository/storage)

Each storage component owns a ttlcache instance keyed by the cache key
and holding list results; any write against a collection clears that
cache wholesale as its first action.  The database is modelled by row
lists; database failures are injected through boolean parameters (one
per executed statement) or, for the transactional order insert, through
an optional index naming the failing database operation.  Cache entries
are keyed by the digest input bytes, standing in for the digest. -/

/-- A row of the orders table. -/
structure OrderRow where
  id : UUID
  userId : UUID
  status : OrderStatus
  deriving DecidableEq

/-- A row of the order_items table; the snapshot column stores the
JSON-encoded snapshot, modelled by its value. -/
structure OrderItemRow where
  id : UUID
  orderId : UUID
  productId : UUID
  quantity : Int
  productSnapshot : ProductSnapshot
  deriving DecidableEq

/-- toOrderDto: the columns of the order insert. -/
def toOrderRow (o : Order) : OrderRow :=
  { id := o.id, userId := o.userId, status := o.status }

/-- toOrderItemDto: the columns of an item insert. -/
def toOrderItemRow (it : OrderItem) : OrderItemRow :=
  { id := it.id, orderId := it.orderId, productId := it.productId,
    quantity := it.quantity, productSnapshot := it.productSnapshot }

/-- The tables and the three per-collection caches. -/
structure StorageState where
  userRows : List User
  productRows : List Product
  orderRows : List OrderRow
  orderItemRows : List OrderItemRow
  userCache : List (List Nat × List User)
  productCache : List (List Nat × List Product)
  orderCache : List (List Nat × List (OrderRow × List OrderItemRow))
  deriving DecidableEq

/-- User.Validate, including the id defaulting (timestamps omitted):
first and last name non-empty after trimming, age at least 18, password
hash and salt present. -/
def User.ValidateAssign (freshId : UUID) (u : User) : Except Err User :=
  let u := if u.id = UUID.nil then { u with id := freshId } else u
  if u.firstName.trim = "" then
    .error (.userValidation "first name is required")
  else if u.lastName.trim = "" then
    .error (.userValidation "last name is required")
  else if u.age < 18 then
    .error (.userValidation "user must be at least 18 years old")
  else if u.passwordHash = [] then
    .error (.userValidation "password hash is required")
  else if u.salt = [] then
    .error (.userValidation "salt is required")
  else
    .ok u

/-- The tag cleanup of Product.Validate: trim every tag, drop the ones
that become empty. -/
def cleanTags (tags : List String) : List String :=
  (tags.map String.trim).filter (fun t => t ≠ "")

/-- Product.Validate, including the id defaulting and the update
timestamp refresh: description non-empty after trimming, quantity
non-negative, tags cleaned. -/
def Product.ValidateAssign (freshId : UUID) (now : Nat) (p : Product) :
    Except Err Product :=
  let p := if p.id = UUID.nil then { p with id := freshId } else p
  let p := { p with updatedAt := now }
  if p.description.trim = "" then
    .error (.productValidation "description is required")
  else if p.quantity < 0 then
    .error (.productValidation "quantity cannot be negative")
  else
    .ok { p with tags := cleanTags p.tags }

/-- userStorage.CreateUser: clear the user cache, validate, then insert
the row (dbFail injects a failing insert). -/
def UserStorage.CreateUser (dbFail : Bool) (freshId : UUID)
    (st : StorageState) (u : User) : StorageState × Except Err Unit :=
  let st := { st with userCache := [] }
  match User.ValidateAssign freshId u with
  | .error e => (st, .error e)
  | .ok u' =>
    if dbFail then (st, .error .storageFailure)
    else ({ st with userRows := st.userRows ++ [u'] }, .ok ())

/-- productStorage.CreateProduct: clear the product cache, validate,
then insert the row. -/
def ProductStorage.CreateProduct (dbFail : Bool) (freshId : UUID) (now : Nat)
    (st : StorageState) (p : Product) : StorageState × Except Err Unit :=
  let st := { st with productCache := [] }
  match Product.ValidateAssign freshId now p with
  | .error e => (st, .error e)
  | .ok p' =>
    if dbFail then (st, .error .storageFailure)
    else ({ st with productRows := st.productRows ++ [p'] }, .ok ())

/-- UpdateProductRequest (internal/domain/product.go). -/
structure UpdateProductRequest where
  id : UUID
  description : Option String
  tags : List String
  quantity : Option Int
  deriving DecidableEq

/-- UpdateProductRequest.Validate. -/
def UpdateProductRequest.Validate (r : UpdateProductRequest) : Option Err :=
  if r.id = UUID.nil then
    some (.productValidation "product ID is required")
  else if (match r.description with
           | some d => d.trim == ""
           | none => false) then
    some (.productValidation "description cannot be empty")
  else if (match r.quantity with
           | some q => decide (q < 0)
           | none => false) then
    some (.productValidation "quantity cannot be negative")
  else
    none

/-- The update statement of productStorage.UpdateProduct applied to a
matching row: refresh the timestamp, set each present field; a
non-empty tag list is stored as given (this path performs no tag
cleanup). -/
def applyProductUpdate (now : Nat) (r : UpdateProductRequest) (p : Product) :
    Product :=
  let p := { p with updatedAt := now }
  let p :=
    match r.description with
    | some d => { p with description := d.trim }
    | none => p
  let p :=
    match r.quantity with
    | some q => { p with quantity := q }
    | none => p
  match r.tags with
  | [] => p
  | _ :: _ => { p with tags := r.tags }

/-- productStorage.UpdateProduct: clear the product cache, validate,
execute the update (updFail injects a failing statement), then re-read
the product through Products, which caches the (possibly empty) result
list (refetchFail injects a failing re-read query); an empty re-read
fails with ErrProductNotFound. -/
def ProductStorage.UpdateProduct (updFail refetchFail : Bool) (now : Nat)
    (st : StorageState) (r : UpdateProductRequest) :
    StorageState × Except Err Product :=
  let st := { st with productCache := [] }
  match r.Validate with
  | some e => (st, .error e)
  | none =>
    if updFail then (st, .error .storageFailure)
    else
      let st := { st with
        productRows := st.productRows.map (fun p =>
          if p.id = r.id then applyProductUpdate now r p else p) }
      if refetchFail then (st, .error .storageFailure)
      else
        let rows := (st.productRows.filter (fun p => p.id = r.id)).take 1
        let key := ((GetProductsRequest.mk [r.id] [] none 1 0).Validate).CacheKeyBytes
        let st := { st with productCache := st.productCache ++ [(key, rows)] }
        match rows with
        | [] => (st, .error (.productNotFound r.id))
        | p :: _ => (st, .ok p)

/-- The items a refetched order row carries. -/
def itemsOfOrderRow (st : StorageState) (oid : UUID) : List OrderItemRow :=
  st.orderItemRows.filter (fun it => it.orderId = oid)

/-- orderStorage.UpdateOrder: clear the order cache, validate, execute
the status update (dbFail injects a failing statement; a zero row count
fails with ErrOrderNotFound), then re-read the order through Orders,
which caches the result list. -/
def OrderStorage.UpdateOrder (dbFail refetchFail : Bool)
    (st : StorageState) (r : UpdateOrderRequest) :
    StorageState × Except Err (OrderRow × List OrderItemRow) :=
  let st := { st with orderCache := [] }
  match r.Validate with
  | some e => (st, .error e)
  | none =>
    if dbFail then (st, .error .storageFailure)
    else if ¬st.orderRows.any (fun o => o.id = r.id) then
      (st, .error .orderNotFound)
    else
      let st := { st with
        orderRows := st.orderRows.map (fun o =>
          if o.id = r.id then { o with status := r.status } else o) }
      if refetchFail then (st, .error .storageFailure)
      else
        let rows := ((st.orderRows.filter (fun o => o.id = r.id)).take 1).map
          (fun o => (o, itemsOfOrderRow st o.id))
        let key := ((GetOrdersRequest.mk [r.id] [] [] 1 0).Validate).CacheKeyBytes
        let st := { st with orderCache := st.orderCache ++ [(key, rows)] }
        match rows with
        | [] => (st, .error .orderNotFound)
        | p :: _ => (st, .ok p)

/-- The item insert loop inside the transaction of
orderStorage.CreateOrder: each insert is a numbered database operation;
an injected failure aborts the loop, a completed loop returns the
buffered item rows and the number of the next operation. -/
def txInsertItems (failStep : Option Nat) (step : Nat)
    (buf : List OrderItemRow) : List OrderItem →
    Option (List OrderItemRow × Nat)
  | [] => some (buf, step)
  | it :: rest =>
    if failStep = some step then none
    else txInsertItems failStep (step + 1) (buf ++ [toOrderItemRow it]) rest

/-- orderStorage.CreateOrder: clear the order cache, validate the order
(assigning fresh ids), then run one transaction that inserts the order
row and one row per item and commits; the deferred rollback discards
every buffered row when any numbered operation fails (0 names Begin, 1
the order insert, 2 + i the insert of item i, and the operation after
the last item names Commit). -/
def OrderStorage.CreateOrder (failStep : Option Nat) (freshIds : Nat → UUID)
    (st : StorageState) (o : Order) : StorageState × Except Err Unit :=
  let st := { st with orderCache := [] }
  match Order.ValidateAssign freshIds o with
  | .error e => (st, .error e)
  | .ok o' =>
    if failStep = some 0 then (st, .error .storageFailure)
    else if failStep = some 1 then (st, .error .storageFailure)
    else
      match txInsertItems failStep 2 [] o'.items with
      | none => (st, .error .storageFailure)
      | some (buf, step) =>
        if failStep = some step then (st, .error .storageFailure)
        else
          let st' := { st with
            orderRows := st.orderRows ++ [toOrderRow o'],
            orderItemRows := st.orderItemRows ++ buf }
          (st', .ok ())

/-! ### Concrete fixtures used by witnesses and counterexamples -/

/-- A product with stock 6. -/
def productC2 : Product := ⟨⟨5⟩, "desk", [], 6, 0⟩

/-- An item over that product with quantity 4. -/
def orderItemC2 : OrderItem := ⟨⟨8⟩, ⟨7⟩, ⟨5⟩, 4, ⟨"desk", []⟩⟩

/-- A pending order holding that item. -/
def orderC2 : Order := ⟨⟨7⟩, ⟨3⟩, OrderStatusPending, [orderItemC2]⟩

/-- A world holding that product and order. -/
def worldC2 : World := ⟨[], [productC2], [orderC2]⟩

/-- A user for the orchestrator fixtures. -/
def userC1 : User := ⟨⟨1⟩, "Ann", "Lee", 30, false, [1], [2]⟩

/-- Eleven distinct products with ids 2 to 12, stock 100 each, except the
first one (id 2) whose stock is 5. -/
def productsC4 : List Product :=
  (List.range 11).map (fun i =>
    Product.mk ⟨i + 2⟩ "item" [] (if i = 0 then 5 else 100) 0)

/-- A world holding the user and the eleven products. -/
def worldC4 : World := ⟨[userC1], productsC4, []⟩

/-- A request by that user referencing all eleven products, one unit
each. -/
def requestC4 : CreateOrderRequest :=
  ⟨⟨1⟩, (List.range 11).map (fun i => CreateOrderItemRequest.mk ⟨i + 2⟩ 1)⟩

/-- A request referencing the eleven products with the last-stored
product (id 12) first and an oversized quantity on the low-stock
product (id 2): the batch load drops product 12, so the existence check
trips before the stock check. -/
def requestC1 : CreateOrderRequest :=
  ⟨⟨1⟩, CreateOrderItemRequest.mk ⟨12⟩ 1 :: CreateOrderItemRequest.mk ⟨2⟩ 1000 ::
    (List.range 9).map (fun i => CreateOrderItemRequest.mk ⟨i + 3⟩ 1)⟩

/-- The spec scenario of C1: one product with stock 4, requested as two
lines of 3 and 2 units. -/
def productC1 : Product := ⟨⟨2⟩, "item", [], 4, 0⟩

/-- A world holding the user and the stock-4 product. -/
def worldC1 : World := ⟨[userC1], [productC1], []⟩

/-- The duplicate-line request of the spec scenario. -/
def requestC1dup : CreateOrderRequest :=
  ⟨⟨1⟩, [CreateOrderItemRequest.mk ⟨2⟩ 3, CreateOrderItemRequest.mk ⟨2⟩ 2]⟩

/-! ## Theorems -/

/-! ### Stock ledger (claims C5, C6, C7) -/

theorem applyStockOp_nonneg (now : Nat) (p : Product) (op : StockOp)
    (h : 0 ≤ p.quantity) : 0 ≤ (applyStockOp now p op).quantity := by
  cases op with
  | reserve q =>
    by_cases h1 : q ≤ 0
    · simp [applyStockOp, Product.ReserveQuantity, h1, h]
    · by_cases h2 : p.quantity < q
      · simp [applyStockOp, Product.ReserveQuantity, h1, h2, h]
      · simp only [applyStockOp, Product.ReserveQuantity, if_neg h1, if_neg h2]
        simp only [not_lt] at h2
        omega
  | restore q =>
    by_cases h1 : q ≤ 0
    · simp [applyStockOp, Product.RestoreQuantity, h1, h]
    · simp only [applyStockOp, Product.RestoreQuantity, if_neg h1]
      simp only [not_le] at h1
      omega

theorem runStockOps_nonneg (ops : List StockOp) : ∀ (now : Nat) (p : Product),
    0 ≤ p.quantity → 0 ≤ (runStockOps now p ops).quantity := by
  induction ops with
  | nil => intro now p h; simpa [runStockOps] using h
  | cons op rest ih =>
    intro now p h
    show 0 ≤ (rest.foldl (applyStockOp now) (applyStockOp now p op)).quantity
    exact ih now (applyStockOp now p op) (applyStockOp_nonneg now p op h)

/-- C5: for every product with initial quantity at least 0 and every
finite sequence of ReserveQuantity and RestoreQuantity calls (keeping
the new state after a successful call and the old state after a failed
one), the quantity is never negative after any prefix of the
sequence. -/
theorem claim_C5_quantity_never_negative (now : Nat) (p : Product)
    (ops : List StockOp) (n : Nat) (h : 0 ≤ p.quantity) :
    0 ≤ (runStockOps now p (ops.take n)).quantity :=
  runStockOps_nonneg (ops.take n) now p h

theorem claim_C5_witness :
    (0 : Int) ≤ 3 ∧
      0 ≤ (runStockOps 7 (Product.mk ⟨1⟩ "desk" [] 3 0)
        (([StockOp.reserve 2, StockOp.restore 5, StockOp.reserve 9]).take 3)).quantity :=
  ⟨by decide,
   claim_C5_quantity_never_negative 7 (Product.mk ⟨1⟩ "desk" [] 3 0)
     [StockOp.reserve 2, StockOp.restore 5, StockOp.reserve 9] 3 (by decide)⟩

/-- C6: reserving a positive quantity within stock and then immediately
restoring the same quantity both succeed and return the quantity to its
value before the reserve. -/
theorem claim_C6_reserve_restore_roundtrip (now1 now2 : Nat) (p : Product)
    (q : Int) (h1 : 0 < q) (h2 : q ≤ p.quantity) :
    ∃ p', Product.ReserveQuantity now1 q p = .ok p' ∧
      ∃ p'', Product.RestoreQuantity now2 q p' = .ok p'' ∧
        p''.quantity = p.quantity := by
  have hq : ¬q ≤ 0 := not_le.mpr h1
  have hs : ¬p.quantity < q := not_lt.mpr h2
  refine ⟨{ p with quantity := p.quantity - q, updatedAt := now1 }, ?_,
    { p with quantity := p.quantity - q + q, updatedAt := now2 }, ?_, ?_⟩
  · simp only [Product.ReserveQuantity, if_neg hq, if_neg hs]
  · simp only [Product.RestoreQuantity, if_neg hq]
  · simp only []
    omega

theorem claim_C6_witness :
    ∃ p', Product.ReserveQuantity 5 4 (Product.mk ⟨1⟩ "desk" [] 9 0) = .ok p' ∧
      ∃ p'', Product.RestoreQuantity 6 4 p' = .ok p'' ∧
        p''.quantity = (Product.mk ⟨1⟩ "desk" [] 9 0).quantity :=
  claim_C6_reserve_restore_roundtrip 5 6 (Product.mk ⟨1⟩ "desk" [] 9 0) 4
    (by decide) (by decide)

/-- C7: ReserveQuantity of a non-positive quantity fails with
ErrInvalidQuantity, ReserveQuantity of a positive quantity above the
stock fails with ErrInsufficientStock, RestoreQuantity of a non-positive
quantity fails with ErrInvalidQuantity, and in every failing case the
product is left unchanged. -/
theorem claim_C7_failure_no_mutation (now : Nat) (q : Int) (p : Product) :
    (q ≤ 0 →
      Product.ReserveQuantity now q p = .error .invalidQuantity ∧
      Product.RestoreQuantity now q p = .error .invalidQuantity ∧
      applyStockOp now p (.reserve q) = p ∧
      applyStockOp now p (.restore q) = p) ∧
    (0 < q → p.quantity < q →
      Product.ReserveQuantity now q p =
        .error (.insufficientStock none p.quantity q) ∧
      applyStockOp now p (.reserve q) = p) := by
  constructor
  · intro h
    simp [Product.ReserveQuantity, Product.RestoreQuantity, applyStockOp, h]
  · intro h1 h2
    have hq : ¬q ≤ 0 := not_le.mpr h1
    simp [Product.ReserveQuantity, applyStockOp, hq, h2]

theorem claim_C7_witness :
    (Product.ReserveQuantity 3 0 (Product.mk ⟨1⟩ "desk" [] 5 0) =
        .error .invalidQuantity ∧
      Product.RestoreQuantity 3 0 (Product.mk ⟨1⟩ "desk" [] 5 0) =
        .error .invalidQuantity ∧
      applyStockOp 3 (Product.mk ⟨1⟩ "desk" [] 5 0) (.reserve 0) =
        Product.mk ⟨1⟩ "desk" [] 5 0 ∧
      applyStockOp 3 (Product.mk ⟨1⟩ "desk" [] 5 0) (.restore 0) =
        Product.mk ⟨1⟩ "desk" [] 5 0) ∧
    (Product.ReserveQuantity 3 9 (Product.mk ⟨1⟩ "desk" [] 5 0) =
        .error (.insufficientStock none 5 9) ∧
      applyStockOp 3 (Product.mk ⟨1⟩ "desk" [] 5 0) (.reserve 9) =
        Product.mk ⟨1⟩ "desk" [] 5 0) :=
  ⟨(claim_C7_failure_no_mutation 3 0 (Product.mk ⟨1⟩ "desk" [] 5 0)).1 (by decide),
   (claim_C7_failure_no_mutation 3 9 (Product.mk ⟨1⟩ "desk" [] 5 0)).2
     (by decide) (by decide)⟩

/-! ### Order state machine (claim C8) -/

/-- C8: Confirm succeeds exactly from pending, Complete exactly from
confirmed, Cancel exactly from pending or confirmed (CanBeCancelled is
true exactly there), cancelled and completed admit no outgoing
transition, and every illegal transition fails with an order validation
error naming the attempted transition and the current status, leaving
the status unchanged (the failing call returns no modified order). -/
theorem claim_C8_state_machine (o : Order) :
    (o.CanBeCancelled = true ↔
      (o.status = OrderStatusPending ∨ o.status = OrderStatusConfirmed)) ∧
    (o.status = OrderStatusPending →
      o.Confirm = .ok { o with status := OrderStatusConfirmed }) ∧
    (o.status ≠ OrderStatusPending →
      o.Confirm = .error (.orderValidation
        (.cannotTransition OrderStatusConfirmed o.status))) ∧
    (o.status = OrderStatusConfirmed →
      o.Complete = .ok { o with status := OrderStatusCompleted }) ∧
    (o.status ≠ OrderStatusConfirmed →
      o.Complete = .error (.orderValidation
        (.cannotTransition OrderStatusCompleted o.status))) ∧
    (o.CanBeCancelled = true →
      o.Cancel = .ok { o with status := OrderStatusCancelled }) ∧
    (o.CanBeCancelled = false →
      o.Cancel = .error (.orderValidation
        (.cannotTransition OrderStatusCancelled o.status))) ∧
    ((o.status = OrderStatusCancelled ∨ o.status = OrderStatusCompleted) →
      (∃ e, o.Confirm = .error e) ∧ (∃ e, o.Complete = .error e) ∧
        (∃ e, o.Cancel = .error e)) := by
  refine ⟨?_, ?_, ?_, ?_, ?_, ?_, ?_, ?_⟩
  · simp [Order.CanBeCancelled]
  · intro h; simp [Order.Confirm, h]
  · intro h; simp [Order.Confirm, h]
  · intro h; simp [Order.Complete, h]
  · intro h; simp [Order.Complete, h]
  · intro h; simp [Order.Cancel, h]
  · intro h; simp [Order.Cancel, h]
  · intro h
    have hp : o.status ≠ OrderStatusPending := by
      rcases h with h | h <;> rw [h] <;> decide
    have hc : o.status ≠ OrderStatusConfirmed := by
      rcases h with h | h <;> rw [h] <;> decide
    have hb : o.CanBeCancelled = false := by
      simp [Order.CanBeCancelled, hp, hc]
    refine ⟨⟨.orderValidation (.cannotTransition OrderStatusConfirmed o.status), ?_⟩,
      ⟨.orderValidation (.cannotTransition OrderStatusCompleted o.status), ?_⟩,
      ⟨.orderValidation (.cannotTransition OrderStatusCancelled o.status), ?_⟩⟩
    · simp [Order.Confirm, hp]
    · simp [Order.Complete, hc]
    · simp [Order.Cancel, hb]

theorem claim_C8_witness :
    ((Order.mk ⟨1⟩ ⟨2⟩ OrderStatusPending []).Confirm =
      .ok { Order.mk ⟨1⟩ ⟨2⟩ OrderStatusPending [] with
        status := OrderStatusConfirmed }) ∧
    ((Order.mk ⟨1⟩ ⟨2⟩ OrderStatusCompleted []).Cancel =
      .error (.orderValidation
        (.cannotTransition OrderStatusCancelled OrderStatusCompleted))) :=
  ⟨(claim_C8_state_machine (Order.mk ⟨1⟩ ⟨2⟩ OrderStatusPending [])).2.1 rfl,
   (claim_C8_state_machine (Order.mk ⟨1⟩ ⟨2⟩ OrderStatusCompleted [])).2.2.2.2.2.2.1
     (by decide)⟩

/-! ### Transactional order insert (claim C9) -/

theorem txInsertItems_cases (failStep : Option Nat) (items : List OrderItem) :
    ∀ (step : Nat) (buf : List OrderItemRow),
    txInsertItems failStep step buf items = none ∨
    txInsertItems failStep step buf items =
      some (buf ++ items.map toOrderItemRow, step + items.length) := by
  induction items with
  | nil => intro step buf; right; simp [txInsertItems]
  | cons it rest ih =>
    intro step buf
    by_cases h : failStep = some step
    · left; simp [txInsertItems, h]
    · rcases ih (step + 1) (buf ++ [toOrderItemRow it]) with h2 | h2
      · left; simp only [txInsertItems, if_neg h]; exact h2
      · right
        simp only [txInsertItems, if_neg h]
        rw [h2]
        simp only [List.append_assoc, List.singleton_append, List.map_cons,
          List.length_cons, Option.some.injEq, Prod.mk.injEq, true_and]
        omega

theorem OrderStorage.CreateOrder_shape (failStep : Option Nat)
    (freshIds : Nat → UUID) (st : StorageState) (o : Order) :
    (∃ o', Order.ValidateAssign freshIds o = .ok o' ∧
      OrderStorage.CreateOrder failStep freshIds st o =
        ({ st with
            orderCache := [],
            orderRows := st.orderRows ++ [toOrderRow o'],
            orderItemRows := st.orderItemRows ++ o'.items.map toOrderItemRow },
         .ok ())) ∨
    (∃ e, OrderStorage.CreateOrder failStep freshIds st o =
      ({ st with orderCache := [] }, .error e)) := by
  cases hv : Order.ValidateAssign freshIds o with
  | error e =>
    right; exact ⟨e, by simp [OrderStorage.CreateOrder, hv]⟩
  | ok o' =>
    by_cases h0 : failStep = some 0
    · right; exact ⟨.storageFailure, by simp [OrderStorage.CreateOrder, hv, h0]⟩
    · by_cases h1 : failStep = some 1
      · right
        exact ⟨.storageFailure, by simp [OrderStorage.CreateOrder, hv, h0, h1]⟩
      · rcases txInsertItems_cases failStep o'.items 2 [] with h2 | h2
        · right
          exact ⟨.storageFailure,
            by simp [OrderStorage.CreateOrder, hv, h0, h1, h2]⟩
        · by_cases h3 : failStep = some (2 + o'.items.length)
          · right
            refine ⟨.storageFailure, ?_⟩
            simp only [OrderStorage.CreateOrder, hv, h2, if_neg h0, if_neg h1,
              List.nil_append]
            rw [if_pos h3]
          · left
            refine ⟨o', rfl, ?_⟩
            simp only [OrderStorage.CreateOrder, hv, h2, if_neg h0, if_neg h1,
              List.nil_append]
            rw [if_neg h3]

/-- C9: orderStorage.CreateOrder persists the order row and all of its
item rows atomically: either the order and every one of its items are
committed, or a failure of any numbered database operation (begin, the
order insert, any item insert, commit) leaves the tables exactly as
they were (the deferred rollback discards the transaction); only the
unconditional cache clear remains in the error case. -/
theorem claim_C9_atomic_order_insert (failStep : Option Nat)
    (freshIds : Nat → UUID) (st : StorageState) (o : Order) :
    (∃ o', Order.ValidateAssign freshIds o = .ok o' ∧
      OrderStorage.CreateOrder failStep freshIds st o =
        ({ st with
            orderCache := [],
            orderRows := st.orderRows ++ [toOrderRow o'],
            orderItemRows := st.orderItemRows ++ o'.items.map toOrderItemRow },
         .ok ())) ∨
    (∃ e, OrderStorage.CreateOrder failStep freshIds st o =
      ({ st with orderCache := [] }, .error e)) :=
  OrderStorage.CreateOrder_shape failStep freshIds st o

/-! ### Cache invalidation on writes (claim C10) -/

theorem ProductStorage.UpdateProduct_shape (updFail refetchFail : Bool)
    (now : Nat) (st : StorageState) (r : UpdateProductRequest) :
    (∃ e, r.Validate = some e ∧
      ProductStorage.UpdateProduct updFail refetchFail now st r =
        ({ st with productCache := [] }, .error e)) ∨
    (r.Validate = none ∧ updFail = true ∧
      ProductStorage.UpdateProduct updFail refetchFail now st r =
        ({ st with productCache := [] }, .error .storageFailure)) ∨
    (r.Validate = none ∧ updFail = false ∧ refetchFail = true ∧
      ProductStorage.UpdateProduct updFail refetchFail now st r =
        ({ st with
            productCache := [],
            productRows := st.productRows.map (fun p =>
              if p.id = r.id then applyProductUpdate now r p else p) },
         .error .storageFailure)) ∨
    (r.Validate = none ∧ updFail = false ∧ refetchFail = false ∧
      ∃ key rows res,
        ProductStorage.UpdateProduct updFail refetchFail now st r =
          ({ st with
              productCache := [(key, rows)],
              productRows := st.productRows.map (fun p =>
                if p.id = r.id then applyProductUpdate now r p else p) },
           res)) := by
  cases hv : r.Validate with
  | some e =>
    left; exact ⟨e, rfl, by simp [ProductStorage.UpdateProduct, hv]⟩
  | none =>
    cases updFail with
    | true =>
      right; left
      exact ⟨rfl, rfl, by simp [ProductStorage.UpdateProduct, hv]⟩
    | false =>
      cases refetchFail with
      | true =>
        right; right; left
        exact ⟨rfl, rfl, rfl, by simp [ProductStorage.UpdateProduct, hv]⟩
      | false =>
        right; right; right
        refine ⟨rfl, rfl, rfl, ?_⟩
        simp only [ProductStorage.UpdateProduct, hv, Bool.false_eq_true,
          if_false]
        split
        · exact ⟨_, _, _, rfl⟩
        · exact ⟨_, _, _, rfl⟩

theorem OrderStorage.UpdateOrder_shape (dbFail refetchFail : Bool)
    (st : StorageState) (r : UpdateOrderRequest) :
    (∃ e, r.Validate = some e ∧
      OrderStorage.UpdateOrder dbFail refetchFail st r =
        ({ st with orderCache := [] }, .error e)) ∨
    (r.Validate = none ∧ dbFail = true ∧
      OrderStorage.UpdateOrder dbFail refetchFail st r =
        ({ st with orderCache := [] }, .error .storageFailure)) ∨
    (r.Validate = none ∧ dbFail = false ∧
      (¬st.orderRows.any (fun o => o.id = r.id)) ∧
      OrderStorage.UpdateOrder dbFail refetchFail st r =
        ({ st with orderCache := [] }, .error .orderNotFound)) ∨
    (r.Validate = none ∧ dbFail = false ∧ refetchFail = true ∧
      OrderStorage.UpdateOrder dbFail refetchFail st r =
        ({ st with
            orderCache := [],
            orderRows := st.orderRows.map (fun o =>
              if o.id = r.id then { o with status := r.status } else o) },
         .error .storageFailure)) ∨
    (r.Validate = none ∧ dbFail = false ∧ refetchFail = false ∧
      ∃ key rows res,
        OrderStorage.UpdateOrder dbFail refetchFail st r =
          ({ st with
              orderCache := [(key, rows)],
              orderRows := st.orderRows.map (fun o =>
                if o.id = r.id then { o with status := r.status } else o) },
           res)) := by
  cases hv : r.Validate with
  | some e =>
    left; exact ⟨e, rfl, by simp [OrderStorage.UpdateOrder, hv]⟩
  | none =>
    cases dbFail with
    | true =>
      right; left
      exact ⟨rfl, rfl, by simp [OrderStorage.UpdateOrder, hv]⟩
    | false =>
      by_cases hrow : st.orderRows.any (fun o => o.id = r.id)
      · cases refetchFail with
        | true =>
          right; right; right; left
          refine ⟨rfl, rfl, rfl, ?_⟩
          simp [OrderStorage.UpdateOrder, hv, hrow]
        | false =>
          right; right; right; right
          refine ⟨rfl, rfl, rfl, ?_⟩
          simp only [OrderStorage.UpdateOrder, hv, Bool.false_eq_true,
            if_false, hrow, not_true, ite_false, ite_true]
          split
          · exact ⟨_, _, _, rfl⟩
          · exact ⟨_, _, _, rfl⟩
      · right; right; left
        refine ⟨rfl, rfl, hrow, ?_⟩
        simp [OrderStorage.UpdateOrder, hv, hrow]

/-- C10: every write operation of a collection (CreateUser,
CreateProduct, CreateOrder, UpdateProduct, UpdateOrder) clears that
entire collection cache as its first step: the cache is emptied even
when the invocation then fails validation or the database statement
fails with no row written, and the caches of the other two collections
are never touched.  The create operations leave the cleared cache empty
in every outcome; the update operations add back at most the single
entry cached by their re-read. -/
theorem claim_C10_cache_invalidation :
    (∀ (dbFail : Bool) (freshId : UUID) (st : StorageState) (u : User),
      (UserStorage.CreateUser dbFail freshId st u).1.userCache = [] ∧
      (UserStorage.CreateUser dbFail freshId st u).1.productCache =
        st.productCache ∧
      (UserStorage.CreateUser dbFail freshId st u).1.orderCache =
        st.orderCache) ∧
    (∀ (dbFail : Bool) (freshId : UUID) (now : Nat) (st : StorageState)
        (p : Product),
      (ProductStorage.CreateProduct dbFail freshId now st p).1.productCache
        = [] ∧
      (ProductStorage.CreateProduct dbFail freshId now st p).1.userCache =
        st.userCache ∧
      (ProductStorage.CreateProduct dbFail freshId now st p).1.orderCache =
        st.orderCache) ∧
    (∀ (failStep : Option Nat) (freshIds : Nat → UUID) (st : StorageState)
        (o : Order),
      (OrderStorage.CreateOrder failStep freshIds st o).1.orderCache = [] ∧
      (OrderStorage.CreateOrder failStep freshIds st o).1.userCache =
        st.userCache ∧
      (OrderStorage.CreateOrder failStep freshIds st o).1.productCache =
        st.productCache) ∧
    (∀ (updFail refetchFail : Bool) (now : Nat) (st : StorageState)
        (r : UpdateProductRequest),
      (ProductStorage.UpdateProduct updFail refetchFail now st r).1.userCache
        = st.userCache ∧
      (ProductStorage.UpdateProduct updFail refetchFail now st r).1.orderCache
        = st.orderCache ∧
      ((ProductStorage.UpdateProduct updFail refetchFail now st r).1.productCache
          = [] ∨
        ∃ key rows,
          (ProductStorage.UpdateProduct updFail refetchFail now st r).1.productCache
            = [(key, rows)]) ∧
      (∀ e, r.Validate = some e →
        ProductStorage.UpdateProduct updFail refetchFail now st r =
          ({ st with productCache := [] }, .error e)) ∧
      (r.Validate = none → updFail = true →
        ProductStorage.UpdateProduct updFail refetchFail now st r =
          ({ st with productCache := [] }, .error .storageFailure))) ∧
    (∀ (dbFail refetchFail : Bool) (st : StorageState)
        (r : UpdateOrderRequest),
      (OrderStorage.UpdateOrder dbFail refetchFail st r).1.userCache =
        st.userCache ∧
      (OrderStorage.UpdateOrder dbFail refetchFail st r).1.productCache =
        st.productCache ∧
      ((OrderStorage.UpdateOrder dbFail refetchFail st r).1.orderCache = [] ∨
        ∃ key rows,
          (OrderStorage.UpdateOrder dbFail refetchFail st r).1.orderCache =
            [(key, rows)]) ∧
      (∀ e, r.Validate = some e →
        OrderStorage.UpdateOrder dbFail refetchFail st r =
          ({ st with orderCache := [] }, .error e)) ∧
      (r.Validate = none → dbFail = true →
        OrderStorage.UpdateOrder dbFail refetchFail st r =
          ({ st with orderCache := [] }, .error .storageFailure))) := by
  refine ⟨?_, ?_, ?_, ?_, ?_⟩
  · intro dbFail freshId st u
    cases h : User.ValidateAssign freshId u with
    | error e => simp [UserStorage.CreateUser, h]
    | ok u' => cases dbFail <;> simp [UserStorage.CreateUser, h]
  · intro dbFail freshId now st p
    cases h : Product.ValidateAssign freshId now p with
    | error e => simp [ProductStorage.CreateProduct, h]
    | ok p' => cases dbFail <;> simp [ProductStorage.CreateProduct, h]
  · intro failStep freshIds st o
    rcases OrderStorage.CreateOrder_shape failStep freshIds st o with
      ⟨o', _, heq⟩ | ⟨e, heq⟩ <;> rw [heq] <;> exact ⟨rfl, rfl, rfl⟩
  · intro updFail refetchFail now st r
    rcases ProductStorage.UpdateProduct_shape updFail refetchFail now st r with
      ⟨e, hv, heq⟩ | ⟨hv, hf, heq⟩ | ⟨hv, hf, hrf, heq⟩ |
        ⟨hv, hf, hrf, key, rows, res, heq⟩ <;>
      rw [heq] <;>
      refine ⟨rfl, rfl, ?_, ?_, ?_⟩
    · exact Or.inl rfl
    · intro e' he'
      rw [hv] at he'
      injection he' with h
      rw [h]
    · intro h1 _
      rw [hv] at h1
      exact Option.noConfusion h1
    · exact Or.inl rfl
    · intro e' he'
      rw [hv] at he'
      exact Option.noConfusion he'
    · intro _ _; rfl
    · exact Or.inl rfl
    · intro e' he'
      rw [hv] at he'
      exact Option.noConfusion he'
    · intro _ hf'
      rw [hf] at hf'
      exact Bool.noConfusion hf'
    · exact Or.inr ⟨key, rows, rfl⟩
    · intro e' he'
      rw [hv] at he'
      exact Option.noConfusion he'
    · intro _ hf'
      rw [hf] at hf'
      exact Bool.noConfusion hf'
  · intro dbFail refetchFail st r
    rcases OrderStorage.UpdateOrder_shape dbFail refetchFail st r with
      ⟨e, hv, heq⟩ | ⟨hv, hf, heq⟩ | ⟨hv, hf, hrow, heq⟩ |
        ⟨hv, hf, hrf, heq⟩ | ⟨hv, hf, hrf, key, rows, res, heq⟩ <;>
      rw [heq] <;>
      refine ⟨rfl, rfl, ?_, ?_, ?_⟩
    · exact Or.inl rfl
    · intro e' he'
      rw [hv] at he'
      injection he' with h
      rw [h]
    · intro h1 _
      rw [hv] at h1
      exact Option.noConfusion h1
    · exact Or.inl rfl
    · intro e' he'
      rw [hv] at he'
      exact Option.noConfusion he'
    · intro _ _; rfl
    · exact Or.inl rfl
    · intro e' he'
      rw [hv] at he'
      exact Option.noConfusion he'
    · intro _ hf'
      rw [hf] at hf'
      exact Bool.noConfusion hf'
    · exact Or.inl rfl
    · intro e' he'
      rw [hv] at he'
      exact Option.noConfusion he'
    · intro _ hf'
      rw [hf] at hf'
      exact Bool.noConfusion hf'
    · exact Or.inr ⟨key, rows, rfl⟩
    · intro e' he'
      rw [hv] at he'
      exact Option.noConfusion he'
    · intro _ hf'
      rw [hf] at hf'
      exact Bool.noConfusion hf'

theorem claim_C10_witness :
    (OrderStorage.UpdateOrder true false
        (StorageState.mk [] [] [] [] [] []
          [(([] : List Nat), ([] : List (OrderRow × List OrderItemRow)))])
        (UpdateOrderRequest.mk ⟨1⟩ OrderStatusPending) =
      ({ StorageState.mk [] [] [] [] [] []
          [(([] : List Nat), ([] : List (OrderRow × List OrderItemRow)))] with
          orderCache := [] }, .error .storageFailure)) ∧
    (UserStorage.CreateUser false ⟨1⟩
        (StorageState.mk [] [] [] [] [(([] : List Nat), ([] : List User))] [] [])
        (User.mk UUID.nil "Ann" "Lee" 30 false [1] [2])).1.userCache = [] :=
  ⟨((claim_C10_cache_invalidation.2.2.2.2 true false
      (StorageState.mk [] [] [] [] [] []
        [(([] : List Nat), ([] : List (OrderRow × List OrderItemRow)))])
      (UpdateOrderRequest.mk ⟨1⟩ OrderStatusPending)).2.2.2.2 (by decide) rfl),
   (claim_C10_cache_invalidation.1 false ⟨1⟩
      (StorageState.mk [] [] [] [] [(([] : List Nat), ([] : List User))] [] [])
      (User.mk UUID.nil "Ann" "Lee" 30 false [1] [2])).1⟩

/-! ### Aggregation lemmas -/

theorem lookupQty_addQty (acc : List (UUID × Int)) (pid pid' : UUID) (q : Int) :
    lookupQty (addQty acc pid q) pid' =
      if pid' = pid then some ((lookupQty acc pid').getD 0 + q)
      else lookupQty acc pid' := by
  induction acc with
  | nil =>
    by_cases h : pid' = pid
    · simp [addQty, lookupQty, h]
    · have h2 : ¬pid = pid' := fun hh => h hh.symm
      simp [addQty, lookupQty, h, h2]
  | cons hd tl ih =>
    obtain ⟨p, v⟩ := hd
    by_cases hp : p = pid
    · by_cases h : pid' = pid
      · simp [addQty, lookupQty, hp, h, hp.trans h.symm]
      · have h2 : ¬pid = pid' := fun hh => h hh.symm
        simp [addQty, lookupQty, hp, h, h2]
    · by_cases hx : p = pid'
      · have h : ¬pid' = pid := fun hh => hp (hx.trans hh)
        simp [addQty, lookupQty, hp, hx, h]
      · simp [addQty, lookupQty, hp, hx, ih]

theorem sumQty_cons (pid : UUID) (p : UUID) (q : Int)
    (rest : List (UUID × Int)) :
    sumQty pid ((p, q) :: rest) =
      (if p = pid then q else 0) + sumQty pid rest := by
  by_cases h : p = pid <;> simp [sumQty, h]

theorem lookupQty_foldl (pairs : List (UUID × Int)) :
    ∀ (acc : List (UUID × Int)) (pid : UUID),
    lookupQty (pairs.foldl (fun acc pr => addQty acc pr.1 pr.2) acc) pid =
      if pid ∈ pairs.map Prod.fst ∨ (lookupQty acc pid).isSome
      then some ((lookupQty acc pid).getD 0 + sumQty pid pairs)
      else none := by
  induction pairs with
  | nil =>
    intro acc pid
    cases h : lookupQty acc pid with
    | none => simp [h, sumQty]
    | some v => simp [h, sumQty]
  | cons hd rest ih =>
    intro acc pid
    obtain ⟨p, q⟩ := hd
    rw [List.foldl_cons]
    rw [ih (addQty acc p q) pid, lookupQty_addQty, List.map_cons, sumQty_cons]
    by_cases hp : pid = p
    · subst hp
      simp only [if_pos rfl, if_pos (rfl : pid = pid), Option.isSome_some,
        or_true, if_true, Option.getD_some, List.mem_cons, true_or,
        eq_self_iff_true]
      congr 1
      ring
    · have hp2 : ¬(p = pid) := fun hh => hp hh.symm
      simp only [if_neg hp, if_neg hp2, zero_add]
      have hmem : (pid ∈ p :: rest.map Prod.fst) ↔ pid ∈ rest.map Prod.fst := by
        simp [List.mem_cons, hp]
      by_cases hc : pid ∈ rest.map Prod.fst ∨ (lookupQty acc pid).isSome
      · rw [if_pos hc, if_pos ?_]
        rcases hc with h | h
        · exact Or.inl (hmem.mpr h)
        · exact Or.inr h
      · rw [if_neg hc, if_neg ?_]
        intro hcc
        apply hc
        rcases hcc with h | h
        · exact Or.inl (hmem.mp h)
        · exact Or.inr h

theorem lookupQty_aggregate (pairs : List (UUID × Int)) (pid : UUID) :
    lookupQty (aggregate pairs) pid =
      if pid ∈ pairs.map Prod.fst then some (sumQty pid pairs) else none := by
  rw [aggregate, lookupQty_foldl]
  by_cases hmm : pid ∈ pairs.map Prod.fst <;> simp [lookupQty, hmm]

theorem keys_addQty (acc : List (UUID × Int)) (pid : UUID) (q : Int) :
    (addQty acc pid q).map Prod.fst =
      if pid ∈ acc.map Prod.fst then acc.map Prod.fst
      else acc.map Prod.fst ++ [pid] := by
  induction acc with
  | nil => simp [addQty]
  | cons hd tl ih =>
    obtain ⟨p, v⟩ := hd
    by_cases hp : p = pid
    · simp [addQty, hp]
    · have hp2 : ¬pid = p := fun hh => hp hh.symm
      by_cases hm : pid ∈ tl.map Prod.fst
      · simp [addQty, hp, hp2, hm, ih]
      · simp [addQty, hp, hp2, hm, ih]

theorem aggregate_keys_nodup (pairs : List (UUID × Int)) :
    ((aggregate pairs).map Prod.fst).Nodup := by
  suffices h : ∀ acc : List (UUID × Int), (acc.map Prod.fst).Nodup →
      ((pairs.foldl (fun acc pr => addQty acc pr.1 pr.2) acc).map Prod.fst).Nodup by
    exact h [] (by simp)
  induction pairs with
  | nil => intro acc hacc; simpa using hacc
  | cons hd rest ih =>
    intro acc hacc
    rw [List.foldl_cons]
    refine ih (addQty acc hd.1 hd.2) ?_
    rw [keys_addQty]
    by_cases hm : hd.1 ∈ acc.map Prod.fst
    · simpa [hm] using hacc
    · rw [if_neg hm]
      simp only [List.nodup_append, List.nodup_cons, List.not_mem_nil,
        not_false_iff, List.nodup_nil, and_true, true_and]
      refine ⟨hacc, ?_⟩
      intro a ha hb
      simp only [List.mem_singleton] at hb
      exact hm (hb ▸ ha)

theorem lookupQty_mem (l : List (UUID × Int)) (pid : UUID) (q : Int)
    (h : lookupQty l pid = some q) : (pid, q) ∈ l := by
  induction l with
  | nil => simp [lookupQty] at h
  | cons hd tl ih =>
    obtain ⟨p, v⟩ := hd
    by_cases hp : p = pid
    · rw [lookupQty, if_pos hp] at h
      injection h with h
      subst hp
      subst h
      exact List.mem_cons_self _ _
    · rw [lookupQty, if_neg hp] at h
      exact List.mem_cons_of_mem _ (ih h)

theorem mem_lookupQty (l : List (UUID × Int)) (pid : UUID) (q : Int)
    (hnd : (l.map Prod.fst).Nodup) (hm : (pid, q) ∈ l) :
    lookupQty l pid = some q := by
  induction l with
  | nil => simp at hm
  | cons hd tl ih =>
    obtain ⟨p, v⟩ := hd
    rw [List.map_cons, List.nodup_cons] at hnd
    rcases List.mem_cons.mp hm with h | h
    · injection h with h1 h2
      rw [lookupQty, if_pos h1.symm, h2]
    · by_cases hp : p = pid
      · exfalso
        apply hnd.1
        subst hp
        exact List.mem_map.mpr ⟨(p, q), h, rfl⟩
      · rw [lookupQty, if_neg hp]
        exact ih hnd.2 h

theorem sumQty_nonneg (pairs : List (UUID × Int)) (pid : UUID)
    (hall : ∀ pr ∈ pairs, 0 < pr.2) : 0 ≤ sumQty pid pairs := by
  induction pairs with
  | nil => simp [sumQty]
  | cons hd tl ih =>
    obtain ⟨p, v⟩ := hd
    rw [sumQty_cons]
    have h2 : 0 < v := hall (p, v) (List.mem_cons_self _ _)
    have h3 := ih (fun pr hpr => hall pr (List.mem_cons_of_mem _ hpr))
    by_cases hp : p = pid <;> simp [hp] <;> omega

theorem sumQty_pos (pairs : List (UUID × Int)) (pid : UUID)
    (hall : ∀ pr ∈ pairs, 0 < pr.2) (hmem : pid ∈ pairs.map Prod.fst) :
    0 < sumQty pid pairs := by
  induction pairs with
  | nil => simp at hmem
  | cons hd rest ih =>
    obtain ⟨p, v⟩ := hd
    rw [sumQty_cons]
    by_cases hp : p = pid
    · have hv : 0 < v := hall (p, v) (List.mem_cons_self _ _)
      have hrest : 0 ≤ sumQty pid rest :=
        sumQty_nonneg rest pid
          (fun pr hpr => hall pr (List.mem_cons_of_mem _ hpr))
      rw [if_pos hp]
      omega
    · rw [if_neg hp, zero_add]
      rcases List.mem_map.mp hmem with ⟨pr, hpr, hfst⟩
      rcases List.mem_cons.mp hpr with h | h
      · exfalso; apply hp; rw [h] at hfst; exact hfst
      · exact ih (fun pr hpr => hall pr (List.mem_cons_of_mem _ hpr))
          (List.mem_map.mpr ⟨pr, h, hfst⟩)

theorem aggregate_pos (pairs : List (UUID × Int))
    (h : ∀ pr ∈ pairs, 0 < pr.2) :
    ∀ pr ∈ aggregate pairs, 0 < pr.2 := by
  rintro ⟨pid, q⟩ hm
  have hl : lookupQty (aggregate pairs) pid = some q :=
    mem_lookupQty _ _ _ (aggregate_keys_nodup pairs) hm
  rw [lookupQty_aggregate] at hl
  by_cases hmm : pid ∈ pairs.map Prod.fst
  · rw [if_pos hmm] at hl
    injection hl with hl
    subst hl
    exact sumQty_pos pairs pid h hmm
  · rw [if_neg hmm] at hl
    cases hl

/-! ### Product row update lemmas -/

theorem find?_update_products (l : List Product) (pid : UUID) (q : Int)
    (now : Nat) (pid' : UUID) :
    ((l.map (fun p => if p.id = pid
        then { p with quantity := q, updatedAt := now } else p)).find?
      (fun p => p.id = pid')) =
      (if pid' = pid then
        (l.find? (fun p => p.id = pid')).map
          (fun p => { p with quantity := q, updatedAt := now })
      else l.find? (fun p => p.id = pid')) := by
  induction l with
  | nil => by_cases h : pid' = pid <;> simp [h]
  | cons x xs ih =>
    simp only [List.map_cons]
    by_cases hx : x.id = pid
    · by_cases hp : pid' = pid
      · rw [List.find?_cons_of_pos _ (by simp [hx, hp]),
          List.find?_cons_of_pos _ (by simp [hx, hp]), if_pos hp]
        simp [hx]
      · have hxp : ¬x.id = pid' := fun hh => hp (hx.symm.trans hh).symm
        rw [List.find?_cons_of_neg _ (by simp [hx]; exact fun hh => hp hh.symm),
          List.find?_cons_of_neg _ (by simp [hxp]), ih, if_neg hp]
    · by_cases hxp : x.id = pid'
      · rw [List.find?_cons_of_pos _ (by rw [if_neg hx]; simp [hxp]),
          List.find?_cons_of_pos _ (by simp [hxp])]
        by_cases hp : pid' = pid
        · exact absurd (hxp.trans hp) hx
        · rw [if_neg hp]
          simp [hx]
      · rw [List.find?_cons_of_neg _ (by simp [hx, hxp]),
          List.find?_cons_of_neg _ (by simp [hxp])]
        rw [ih]

theorem update_products_ids (l : List Product) (pid : UUID) (q : Int)
    (now : Nat) :
    ((l.map (fun p => if p.id = pid
        then { p with quantity := q, updatedAt := now } else p)).map
      (fun p => p.id)) = l.map (fun p => p.id) := by
  induction l with
  | nil => rfl
  | cons x xs ih =>
    by_cases h : x.id = pid <;> simp [h, ih]

theorem World.updateProductQuantity_fst (w : World) (pid : UUID) (q : Int)
    (now : Nat) :
    (w.updateProductQuantity pid q now).1 =
      { w with products := w.products.map (fun p => if p.id = pid
          then { p with quantity := q, updatedAt := now } else p) } := by
  simp only [World.updateProductQuantity]
  split <;> rfl

theorem World.findProduct_update (w : World) (pid : UUID) (q : Int)
    (now : Nat) (pid' : UUID) :
    ((w.updateProductQuantity pid q now).1).findProduct pid' =
      (if pid' = pid then
        (w.findProduct pid').map
          (fun p => { p with quantity := q, updatedAt := now })
      else w.findProduct pid') := by
  rw [World.updateProductQuantity_fst]
  exact find?_update_products w.products pid q now pid'

theorem World.updateProductQuantity_found (w : World) (pid : UUID)
    (p : Product) (q : Int) (now : Nat) (h : w.findProduct pid = some p) :
    (w.updateProductQuantity pid q now).2 =
      .ok { p with quantity := q, updatedAt := now } := by
  have hf : (({ w with products := w.products.map (fun x => if x.id = pid
      then { x with quantity := q, updatedAt := now } else x) } : World).findProduct
        pid) = some { p with quantity := q, updatedAt := now } := by
    show ((w.products.map (fun x => if x.id = pid
      then { x with quantity := q, updatedAt := now } else x)).find?
        (fun x => x.id = pid)) = _
    rw [find?_update_products w.products pid q now pid, if_pos rfl]
    rw [show w.products.find? (fun x => x.id = pid) = some p from h]
    rfl
  simp only [World.updateProductQuantity]
  rw [hf]

theorem lookupQty_not_mem (l : List (UUID × Int)) (pid : UUID)
    (h : pid ∉ l.map Prod.fst) : lookupQty l pid = none := by
  induction l with
  | nil => rfl
  | cons hd tl ih =>
    obtain ⟨p, v⟩ := hd
    rw [List.map_cons, List.mem_cons] at h
    push_neg at h
    rw [lookupQty, if_neg (fun hh => h.1 hh.symm)]
    exact ih h.2

/-! ### Restoration loop of CancelOrder -/

theorem restoreProducts_spec (now : Nat) (agg : List (UUID × Int)) :
    ∀ (w : World), ((agg.map Prod.fst).Nodup) → (∀ pr ∈ agg, 0 < pr.2) →
    (restoreProducts now w agg).2 = none ∧
    (restoreProducts now w agg).1.users = w.users ∧
    (restoreProducts now w agg).1.orders = w.orders ∧
    (restoreProducts now w agg).1.products.map (fun p => p.id) =
      w.products.map (fun p => p.id) ∧
    ∀ pid, (restoreProducts now w agg).1.findProduct pid =
      (w.findProduct pid).map (fun p =>
        match lookupQty agg pid with
        | some q => { p with quantity := p.quantity + q, updatedAt := now }
        | none => p) := by
  induction agg with
  | nil =>
    intro w _ _
    refine ⟨rfl, rfl, rfl, rfl, ?_⟩
    intro pid
    simp [restoreProducts, lookupQty]
  | cons hd rest ih =>
    rintro w hnd hpos
    obtain ⟨pid0, q0⟩ := hd
    rw [List.map_cons, List.nodup_cons] at hnd
    have hq0 : 0 < q0 := hpos (pid0, q0) (List.mem_cons_self _ _)
    have hposr : ∀ pr ∈ rest, 0 < pr.2 :=
      fun pr hpr => hpos pr (List.mem_cons_of_mem _ hpr)
    cases hcase : w.findProduct pid0 with
    | none =>
      have hstep : restoreProducts now w ((pid0, q0) :: rest) =
          restoreProducts now w rest := by
        rw [restoreProducts, hcase]
      rw [hstep]
      obtain ⟨h1, h2, h3, h4, h5⟩ := ih w hnd.2 hposr
      refine ⟨h1, h2, h3, h4, ?_⟩
      intro pid
      by_cases hpid : pid0 = pid
      · subst hpid
        rw [h5 pid0, hcase]
        rfl
      · rw [h5 pid, lookupQty, if_neg hpid]
    | some p0 =>
      have hrest : Product.RestoreQuantity now q0 p0 =
          .ok { p0 with quantity := p0.quantity + q0, updatedAt := now } := by
        rw [Product.RestoreQuantity, if_neg (not_le.mpr hq0)]
      have hupd : w.updateProductQuantity pid0 (p0.quantity + q0) now =
          ({ w with products := w.products.map (fun x => if x.id = pid0
              then { x with quantity := p0.quantity + q0, updatedAt := now }
              else x) },
           .ok { p0 with quantity := p0.quantity + q0, updatedAt := now }) := by
        refine Prod.ext ?_ ?_
        · exact World.updateProductQuantity_fst w pid0 (p0.quantity + q0) now
        · exact World.updateProductQuantity_found w pid0 p0
            (p0.quantity + q0) now hcase
      have hstep : restoreProducts now w ((pid0, q0) :: rest) =
          restoreProducts now
            { w with products := w.products.map (fun x => if x.id = pid0
                then { x with quantity := p0.quantity + q0, updatedAt := now }
                else x) } rest := by
        rw [restoreProducts, hcase]
        simp only [hrest, hupd]
      rw [hstep]
      obtain ⟨h1, h2, h3, h4, h5⟩ := ih _ hnd.2 hposr
      refine ⟨h1, by rw [h2], by rw [h3], ?_, ?_⟩
      · rw [h4]
        exact update_products_ids w.products pid0 (p0.quantity + q0) now
      · intro pid
        rw [h5 pid]
        have hw1 : (({ w with products := w.products.map (fun x => if x.id = pid0
            then { x with quantity := p0.quantity + q0, updatedAt := now }
            else x) } : World).findProduct pid) =
            (if pid = pid0 then
              (w.findProduct pid).map (fun x =>
                { x with quantity := p0.quantity + q0, updatedAt := now })
            else w.findProduct pid) :=
          find?_update_products w.products pid0 (p0.quantity + q0) now pid
        rw [hw1]
        by_cases hpid : pid = pid0
        · subst hpid
          rw [if_pos rfl, hcase, lookupQty_not_mem rest pid hnd.1, lookupQty,
            if_pos rfl]
          rfl
        · rw [if_neg hpid, lookupQty, if_neg (fun hh => hpid hh.symm)]

theorem find?_update_orders (l : List Order) (oid : UUID) (st : OrderStatus)
    (oid' : UUID) :
    ((l.map (fun o => if o.id = oid then { o with status := st } else o)).find?
      (fun o => o.id = oid')) =
      (if oid' = oid then
        (l.find? (fun o => o.id = oid')).map (fun o => { o with status := st })
      else l.find? (fun o => o.id = oid')) := by
  induction l with
  | nil => by_cases h : oid' = oid <;> simp [h]
  | cons x xs ih =>
    simp only [List.map_cons]
    by_cases hx : x.id = oid
    · by_cases hp : oid' = oid
      · rw [List.find?_cons_of_pos _ (by simp [hx, hp]),
          List.find?_cons_of_pos _ (by simp [hx, hp]), if_pos hp]
        simp [hx]
      · have hxp : ¬x.id = oid' := fun hh => hp (hx.symm.trans hh).symm
        rw [List.find?_cons_of_neg _ (by simp [hx]; exact fun hh => hp hh.symm),
          List.find?_cons_of_neg _ (by simp [hxp]), ih, if_neg hp]
    · by_cases hxp : x.id = oid'
      · rw [List.find?_cons_of_pos _ (by rw [if_neg hx]; simp [hxp]),
          List.find?_cons_of_pos _ (by simp [hxp])]
        by_cases hp : oid' = oid
        · exact absurd (hxp.trans hp) hx
        · rw [if_neg hp]
          simp [hx]
      · rw [List.find?_cons_of_neg _ (by simp [hx, hxp]),
          List.find?_cons_of_neg _ (by simp [hxp])]
        rw [ih]

/-! ### CancelOrder (claim C2) -/

/-- C2: for an existing order whose items carry positive quantities (the
creation invariant), CancelOrder succeeds exactly when the status is
pending or confirmed: it sums the item quantities per product id,
restores that summed quantity to each product still resolvable by id
(silently skipping vanished products), persists each product update,
and sets the order status to cancelled; for a completed or cancelled
order it fails with an order validation error naming the current status
and mutates nothing. -/
theorem claim_C2_cancel_order (now : Nat) (w : World) (oid : UUID)
    (order : Order)
    (horder : w.findOrder oid = some order)
    (hnil : oid ≠ UUID.nil)
    (hpos : ∀ it ∈ order.items, 0 < it.quantity) :
    (order.CanBeCancelled = false →
      OrderAppService.CancelOrder now w oid =
        (w, .error (.orderValidation
          (.cannotTransition OrderStatusCancelled order.status)))) ∧
    (order.CanBeCancelled = true →
      ∃ w', OrderAppService.CancelOrder now w oid =
          (w', .ok { order with status := OrderStatusCancelled }) ∧
        w'.users = w.users ∧
        w'.products.map (fun p => p.id) = w.products.map (fun p => p.id) ∧
        (∀ pid, w'.findProduct pid = (w.findProduct pid).map (fun p =>
          match lookupQty (aggregate (order.items.map (fun it =>
              (it.productId, it.quantity)))) pid with
          | some q => { p with quantity := p.quantity + q, updatedAt := now }
          | none => p)) ∧
        (∀ pid q, lookupQty (aggregate (order.items.map (fun it =>
            (it.productId, it.quantity)))) pid = some q →
          q = sumQty pid (order.items.map (fun it =>
            (it.productId, it.quantity)))) ∧
        w'.orders = w.orders.map (fun o =>
          if o.id = oid then { o with status := OrderStatusCancelled }
          else o)) := by
  have hid : order.id = oid := by
    have h := List.find?_some horder
    exact of_decide_eq_true h
  constructor
  · intro hcb
    rw [OrderAppService.CancelOrder, horder]
    simp [hcb]
  · intro hcb
    have hpairs_pos : ∀ pr ∈ order.items.map (fun it =>
        (it.productId, it.quantity)), 0 < pr.2 := by
      intro pr hpr
      rcases List.mem_map.mp hpr with ⟨it, hit, hh⟩
      rw [← hh]
      exact hpos it hit
    obtain ⟨h1, h2, h3, h4, h5⟩ := restoreProducts_spec now
      (aggregate (order.items.map (fun it => (it.productId, it.quantity)))) w
      (aggregate_keys_nodup _)
      (aggregate_pos _ hpairs_pos)
    obtain ⟨w1, hw1⟩ : ∃ w1, restoreProducts now w
        (aggregate (order.items.map (fun it => (it.productId, it.quantity))))
          = (w1, none) :=
      ⟨_, Prod.ext rfl h1⟩
    rw [hw1] at h2 h3 h4 h5
    simp only at h2 h3 h4 h5
    have horder' : w.findOrder order.id = some order := by rw [hid]; exact horder
    have hcancel : order.Cancel =
        .ok { order with status := OrderStatusCancelled } := by
      rw [Order.Cancel, if_pos hcb]
    have hvalreq : (UpdateOrderRequest.mk order.id OrderStatusCancelled).Validate
        = none := by
      rw [UpdateOrderRequest.Validate,
        if_neg (show ¬((UpdateOrderRequest.mk order.id
          OrderStatusCancelled).id = UUID.nil) from by
            simpa [hid] using hnil),
        if_pos (Or.inr (Or.inr (Or.inl rfl)))]
    have hany : (w1.orders.any (fun o =>
        o.id = (UpdateOrderRequest.mk order.id OrderStatusCancelled).id))
        = true := by
      rw [h3]
      refine List.any_eq_true.mpr ⟨order, List.mem_of_find?_eq_some horder', ?_⟩
      simp
    have hfind2 : (({ w1 with orders := w1.orders.map (fun o =>
        if o.id = (UpdateOrderRequest.mk order.id OrderStatusCancelled).id
        then { o with status :=
          (UpdateOrderRequest.mk order.id OrderStatusCancelled).status }
        else o) } : World).findOrder
          (UpdateOrderRequest.mk order.id OrderStatusCancelled).id) =
        some { order with status := OrderStatusCancelled } := by
      show ((w1.orders.map (fun o => if o.id = order.id
        then { o with status := OrderStatusCancelled } else o)).find?
          (fun o => o.id = order.id)) = _
      rw [find?_update_orders, if_pos rfl, h3]
      rw [show w.orders.find? (fun o => o.id = order.id) = some order
        from horder']
      rfl
    have hupd : w1.updateOrderStatus
        (UpdateOrderRequest.mk order.id OrderStatusCancelled) =
        ({ w1 with orders := w1.orders.map (fun o =>
            if o.id = order.id then { o with status := OrderStatusCancelled }
            else o) },
         .ok { order with status := OrderStatusCancelled }) := by
      rw [World.updateOrderStatus, hvalreq]
      dsimp only
      rw [if_pos hany]
      rw [hfind2]
    have hmain : OrderAppService.CancelOrder now w oid =
        ({ w1 with orders := w1.orders.map (fun o =>
            if o.id = order.id then { o with status := OrderStatusCancelled }
            else o) },
         .ok { order with status := OrderStatusCancelled }) := by
      rw [OrderAppService.CancelOrder, horder]
      simp only [if_neg (not_not_intro hcb), hw1, hcancel]
      exact hupd
    refine ⟨_, hmain, h2, ?_, ?_, ?_, ?_⟩
    · exact h4
    · intro pid
      exact h5 pid
    · intro pid q hlq
      rw [lookupQty_aggregate] at hlq
      by_cases hm : pid ∈ (order.items.map (fun it =>
          (it.productId, it.quantity))).map Prod.fst
      · rw [if_pos hm] at hlq
        injection hlq with hlq
        exact hlq.symm
      · rw [if_neg hm] at hlq
        cases hlq
    · show w1.orders.map _ = w.orders.map _
      rw [h3, hid]

theorem claim_C2_witness :
    ∃ w', OrderAppService.CancelOrder 9 worldC2 ⟨7⟩ =
        (w', .ok { orderC2 with status := OrderStatusCancelled }) ∧
      w'.users = worldC2.users ∧
      w'.products.map (fun p => p.id) = worldC2.products.map (fun p => p.id) ∧
      (∀ pid, w'.findProduct pid = (worldC2.findProduct pid).map (fun p =>
        match lookupQty (aggregate (orderC2.items.map (fun it =>
            (it.productId, it.quantity)))) pid with
        | some q => { p with quantity := p.quantity + q, updatedAt := 9 }
        | none => p)) ∧
      (∀ pid q, lookupQty (aggregate (orderC2.items.map (fun it =>
          (it.productId, it.quantity)))) pid = some q →
        q = sumQty pid (orderC2.items.map (fun it =>
          (it.productId, it.quantity)))) ∧
      w'.orders = worldC2.orders.map (fun o =>
        if o.id = ⟨7⟩ then { o with status := OrderStatusCancelled } else o) :=
  (claim_C2_cancel_order 9 worldC2 ⟨7⟩ orderC2 (by rfl) (by decide)
      (by decide)).2 (by decide)

/-! ### CreateOrder stock pre-check (claims C1, C4) -/

theorem find?_filter_ids (l : List Product) (pid : UUID) (pids : List UUID)
    (hmem : pid ∈ pids) :
    ((l.filter (fun p => pids.contains p.id)).find? (fun p => p.id = pid)) =
      l.find? (fun p => p.id = pid) := by
  induction l with
  | nil => rfl
  | cons x xs ih =>
    by_cases hx : x.id = pid
    · have hc : pids.contains x.id = true := by
        rw [hx]
        exact List.elem_iff.mpr hmem
      rw [List.filter_cons, if_pos hc,
        List.find?_cons_of_pos _ (by simp [hx]),
        List.find?_cons_of_pos _ (by simp [hx])]
    · by_cases hc : pids.contains x.id = true
      · rw [List.filter_cons, if_pos hc,
          List.find?_cons_of_neg _ (by simp [hx]),
          List.find?_cons_of_neg _ (by simp [hx])]
        exact ih
      · rw [List.filter_cons, if_neg hc,
          List.find?_cons_of_neg _ (by simp [hx])]
        exact ih

theorem checkProducts_shortfall (loaded : List Product) :
    ∀ agg : List (UUID × Int),
    (∀ pr ∈ agg, (findById loaded pr.1).isSome) →
    (∃ pr ∈ agg, ∃ p, findById loaded pr.1 = some p ∧ p.quantity < pr.2) →
    ∃ pid q p, (pid, q) ∈ agg ∧ findById loaded pid = some p ∧
      p.quantity < q ∧
      checkProducts agg loaded =
        some (.insufficientStock (some pid) p.quantity q) := by
  intro agg
  induction agg with
  | nil =>
    rintro _ ⟨pr, hpr, _⟩
    simp at hpr
  | cons hd rest ih =>
    rintro hall hshort
    obtain ⟨pid0, q0⟩ := hd
    have h0 : (findById loaded pid0).isSome :=
      hall (pid0, q0) (List.mem_cons_self _ _)
    obtain ⟨p0, hp0⟩ := Option.isSome_iff_exists.mp h0
    by_cases hlt : p0.quantity < q0
    · refine ⟨pid0, q0, p0, List.mem_cons_self _ _, hp0, hlt, ?_⟩
      rw [checkProducts]
      simp only [hp0, if_pos hlt]
    · have hred : checkProducts ((pid0, q0) :: rest) loaded =
          checkProducts rest loaded := by
        rw [checkProducts]
        simp only [hp0, if_neg hlt]
      obtain ⟨pr, hpr, p, hp, hplt⟩ := hshort
      have hprr : pr ∈ rest := by
        rcases List.mem_cons.mp hpr with h | h
        · exfalso
          subst h
          rw [hp0] at hp
          injection hp with hp
          subst hp
          exact hlt hplt
        · exact h
      obtain ⟨pid, q, p, hm, hf, hq, hchk⟩ := ih
        (fun pr hpr => hall pr (List.mem_cons_of_mem _ hpr))
        ⟨pr, hprr, p, hp, hplt⟩
      exact ⟨pid, q, p, List.mem_cons_of_mem _ hm, hf, hq, hred ▸ hchk⟩

theorem createOrder_check_some (now : Nat) (freshIds : Nat → UUID) (w : World)
    (req : CreateOrderRequest) (u : User) (e : Err)
    (hval : req.Validate = none)
    (hu : w.findUser req.userId = some u)
    (hchk : checkProducts
        (aggregate (req.items.map (fun it => (it.productId, it.quantity))))
        (w.productsByIds (req.items.map (fun it => it.productId))) = some e) :
    OrderAppService.CreateOrder now freshIds w req = (w, .error e) := by
  rw [OrderAppService.CreateOrder, hval]
  simp only [hu, hchk]

/-- C1 (amended): for a shape-valid request of an existing user, when at
most 10 stored products match the referenced ids (the batch product
load truncates at the normalized default limit of 10) and every
referenced product id resolves, the requested quantities of duplicate
product ids are summed per distinct product id, and if the available
quantity of any requested product is below its aggregated requested
quantity then CreateOrder fails with ErrInsufficientStock naming a
product id with its available and requested counts, and no product is
mutated and nothing is persisted: the world is returned unchanged. -/
theorem claim_C1_insufficient_stock_all_or_nothing
    (now : Nat) (freshIds : Nat → UUID) (w : World) (req : CreateOrderRequest)
    (u : User)
    (hval : req.Validate = none)
    (hu : w.findUser req.userId = some u)
    (hload : (w.products.filter (fun p =>
        (req.items.map (fun it => it.productId)).contains p.id)).length ≤ 10)
    (hex : ∀ pid ∈ req.items.map (fun it => it.productId),
        (w.findProduct pid).isSome)
    (hshort : ∃ pr ∈ aggregate (req.items.map (fun it =>
        (it.productId, it.quantity))), ∃ p, w.findProduct pr.1 = some p ∧
        p.quantity < pr.2) :
    (∀ pid ∈ req.items.map (fun it => it.productId),
      lookupQty (aggregate (req.items.map (fun it =>
          (it.productId, it.quantity)))) pid =
        some (sumQty pid (req.items.map (fun it =>
          (it.productId, it.quantity))))) ∧
    ∃ pid q p, (pid, q) ∈ aggregate (req.items.map (fun it =>
        (it.productId, it.quantity))) ∧
      w.findProduct pid = some p ∧ p.quantity < q ∧
      OrderAppService.CreateOrder now freshIds w req =
        (w, .error (.insufficientStock (some pid) p.quantity q)) := by
  have hfst : (req.items.map (fun it => (it.productId, it.quantity))).map
      Prod.fst = req.items.map (fun it => it.productId) := by
    simp [List.map_map, Function.comp]
  have htake : w.productsByIds (req.items.map (fun it => it.productId)) =
      w.products.filter (fun p =>
        (req.items.map (fun it => it.productId)).contains p.id) := by
    rw [World.productsByIds]
    exact List.take_of_length_le hload
  have hfind_loaded : ∀ pid ∈ req.items.map (fun it => it.productId),
      findById (w.productsByIds (req.items.map (fun it => it.productId))) pid
        = w.findProduct pid := by
    intro pid hm
    rw [htake]
    exact find?_filter_ids w.products pid _ hm
  have haggmem : ∀ pr ∈ aggregate (req.items.map (fun it =>
      (it.productId, it.quantity))), pr.1 ∈ req.items.map (fun it =>
        it.productId) := by
    rintro ⟨pid, q⟩ hm
    have hl := mem_lookupQty _ _ _ (aggregate_keys_nodup _) hm
    rw [lookupQty_aggregate] at hl
    by_cases hmm : pid ∈ (req.items.map (fun it =>
        (it.productId, it.quantity))).map Prod.fst
    · rw [hfst] at hmm
      exact hmm
    · rw [if_neg hmm] at hl
      cases hl
  constructor
  · intro pid hm
    rw [lookupQty_aggregate, if_pos (by rw [hfst]; exact hm)]
  · have hall : ∀ pr ∈ aggregate (req.items.map (fun it =>
        (it.productId, it.quantity))),
        (findById (w.productsByIds (req.items.map (fun it =>
          it.productId))) pr.1).isSome := by
      intro pr hm
      rw [hfind_loaded pr.1 (haggmem pr hm)]
      exact hex pr.1 (haggmem pr hm)
    have hshort' : ∃ pr ∈ aggregate (req.items.map (fun it =>
        (it.productId, it.quantity))), ∃ p,
        findById (w.productsByIds (req.items.map (fun it =>
          it.productId))) pr.1 = some p ∧ p.quantity < pr.2 := by
      obtain ⟨pr, hm, p, hp, hlt⟩ := hshort
      exact ⟨pr, hm, p, by rw [hfind_loaded pr.1 (haggmem pr hm)]; exact hp,
        hlt⟩
    obtain ⟨pid, q, p, hm, hf, hq, hchk⟩ :=
      checkProducts_shortfall _ _ hall hshort'
    refine ⟨pid, q, p, hm, ?_, hq, ?_⟩
    · rw [← hfind_loaded pid (haggmem (pid, q) hm)]
      exact hf
    · exact createOrder_check_some now freshIds w req u _ hval hu hchk

theorem claim_C1_witness :
    (∀ pid ∈ requestC1dup.items.map (fun it => it.productId),
      lookupQty (aggregate (requestC1dup.items.map (fun it =>
          (it.productId, it.quantity)))) pid =
        some (sumQty pid (requestC1dup.items.map (fun it =>
          (it.productId, it.quantity))))) ∧
    ∃ pid q p, (pid, q) ∈ aggregate (requestC1dup.items.map (fun it =>
        (it.productId, it.quantity))) ∧
      worldC1.findProduct pid = some p ∧ p.quantity < q ∧
      OrderAppService.CreateOrder 0 (fun n => ⟨100 + n⟩) worldC1 requestC1dup =
        (worldC1, .error (.insufficientStock (some pid) p.quantity q)) :=
  claim_C1_insufficient_stock_all_or_nothing 0 (fun n => ⟨100 + n⟩) worldC1
    requestC1dup userC1 (by decide) (by rfl) (by decide) (by decide)
    ⟨(⟨2⟩, 5), by decide, productC1, by rfl, by decide⟩

/-- C1 counterexample to the unamended claim: a request referencing 11
existing products, one of which (id 2, stock 5) is short by far (1000
requested), nevertheless fails with ErrProductNotFound instead of
ErrInsufficientStock, because the batch product load is truncated to
the normalized default limit of 10 rows and the id aggregated first (id
12) is among the dropped rows. -/
theorem claim_C1_counterexample :
    requestC1.Validate = none ∧
    worldC4.findUser requestC1.userId = some userC1 ∧
    (∀ pid ∈ requestC1.items.map (fun it => it.productId),
      (worldC4.findProduct pid).isSome) ∧
    (∃ pr ∈ aggregate (requestC1.items.map (fun it =>
        (it.productId, it.quantity))),
      ∃ p, worldC4.findProduct pr.1 = some p ∧ p.quantity < pr.2) ∧
    OrderAppService.CreateOrder 0 (fun n => ⟨100 + n⟩) worldC4 requestC1 =
      (worldC4, .error (.productNotFound ⟨12⟩)) ∧
    ∀ pid avail q, OrderAppService.CreateOrder 0 (fun n => ⟨100 + n⟩) worldC4
      requestC1 ≠ (worldC4, .error (.insufficientStock (some pid) avail q)) := by
  have heq : OrderAppService.CreateOrder 0 (fun n => ⟨100 + n⟩) worldC4
      requestC1 = (worldC4, .error (.productNotFound ⟨12⟩)) := by rfl
  refine ⟨by decide, by rfl, by decide,
    ⟨(⟨2⟩, 1000), by decide, Product.mk ⟨2⟩ "item" [] 5 0, by rfl, by decide⟩,
    heq, ?_⟩
  intro pid avail q h
  rw [heq] at h
  simp [Prod.ext_iff] at h

/-- C4: the code loads the product batch of CreateOrder through a
request whose zero limit is normalized to 10, so a shape-valid request
by an existing user referencing 11 existing, amply stocked products
fails with ErrProductNotFound for an existing product, although the
claim (and the spec) requires that no not-found error occurs when the
user and every referenced product exist. -/
theorem claim_C4_truncated_batch_bug :
    requestC4.Validate = none ∧
    worldC4.findUser requestC4.userId = some userC1 ∧
    (∀ pid ∈ requestC4.items.map (fun it => it.productId),
      (worldC4.findProduct pid).isSome) ∧
    (∀ pr ∈ aggregate (requestC4.items.map (fun it =>
        (it.productId, it.quantity))),
      ((worldC4.findProduct pr.1).map
        (fun p => decide (pr.2 ≤ p.quantity))).getD false = true) ∧
    OrderAppService.CreateOrder 0 (fun n => ⟨100 + n⟩) worldC4 requestC4 =
      (worldC4, .error (.productNotFound ⟨12⟩)) :=
  ⟨by decide, by rfl, by decide, by decide, by rfl⟩

/-! ### Cache key encoding (claim C3) -/

theorem natLEBytes_length (k : Nat) : ∀ n, (natLEBytes n k).length = k := by
  induction k with
  | zero => intro n; rfl
  | succ k ih => intro n; rw [natLEBytes]; simp [ih]

theorem natLEBytes_inj (k : Nat) : ∀ m n, m < 256 ^ k → n < 256 ^ k →
    natLEBytes m k = natLEBytes n k → m = n := by
  induction k with
  | zero =>
    intro m n hm hn _
    simp [pow_zero] at hm hn
    omega
  | succ k ih =>
    intro m n hm hn h
    rw [natLEBytes, natLEBytes] at h
    injection h with h1 h2
    have hm2 : m / 256 < 256 ^ k := by
      rw [pow_succ] at hm
      exact (Nat.div_lt_iff_lt_mul (by norm_num)).mpr hm
    have hn2 : n / 256 < 256 ^ k := by
      rw [pow_succ] at hn
      exact (Nat.div_lt_iff_lt_mul (by norm_num)).mpr hn
    have h3 := ih _ _ hm2 hn2 h2
    omega

theorem natBEBytes_length (n k : Nat) : (natBEBytes n k).length = k := by
  rw [natBEBytes, List.length_reverse]
  exact natLEBytes_length k n

theorem natBEBytes_inj (k m n : Nat) (hm : m < 256 ^ k) (hn : n < 256 ^ k)
    (h : natBEBytes m k = natBEBytes n k) : m = n :=
  natLEBytes_inj k m n hm hn (List.reverse_inj.mp h)

theorem u32_length (i : Int) : (u32 i).length = 4 :=
  natBEBytes_length _ 4

theorem u32_inj (i j : Int) (hi0 : 0 ≤ i) (hi : i < 2 ^ 32) (hj0 : 0 ≤ j)
    (hj : j < 2 ^ 32) (h : u32 i = u32 j) : i = j := by
  rw [u32, u32, Int.emod_eq_of_lt hi0 hi, Int.emod_eq_of_lt hj0 hj] at h
  have hb : (256 : Nat) ^ 4 = 2 ^ 32 := by norm_num
  have hm : i.toNat < 256 ^ 4 := by rw [hb]; omega
  have hn : j.toNat < 256 ^ 4 := by rw [hb]; omega
  have := natBEBytes_inj 4 i.toNat j.toNat hm hn h
  omega

theorem uuidBytes_length (u : UUID) : u.bytes.length = 16 :=
  natBEBytes_length _ 16

theorem uuidBytes_inj (u v : UUID) (hu : u.wf) (hv : v.wf)
    (h : u.bytes = v.bytes) : u = v := by
  have hb : (256 : Nat) ^ 16 = 2 ^ 128 := by norm_num
  have hm : u.val < 256 ^ 16 := by rw [hb]; exact hu
  have hn : v.val < 256 ^ 16 := by rw [hb]; exact hv
  have := natBEBytes_inj 16 u.val v.val hm hn h
  cases u
  cases v
  simp only at this
  rw [this]

theorem flatten_uuidBytes_inj : ∀ (l1 l2 : List UUID),
    (∀ u ∈ l1, u.wf) → (∀ u ∈ l2, u.wf) → l1.length = l2.length →
    (l1.map UUID.bytes).flatten = (l2.map UUID.bytes).flatten → l1 = l2 := by
  intro l1
  induction l1 with
  | nil =>
    intro l2 _ _ hlen _
    cases l2 with
    | nil => rfl
    | cons y ys => simp at hlen
  | cons x xs ih =>
    intro l2 h1 h2 hlen hfl
    cases l2 with
    | nil => simp at hlen
    | cons y ys =>
      simp only [List.map_cons, List.flatten_cons] at hfl
      have hx : x.bytes = y.bytes :=
        List.append_inj_left hfl
          (by rw [uuidBytes_length, uuidBytes_length])
      have hxy : x = y := uuidBytes_inj x y
        (h1 x (List.mem_cons_self _ _)) (h2 y (List.mem_cons_self _ _)) hx
      have hrest : (xs.map UUID.bytes).flatten = (ys.map UUID.bytes).flatten :=
        List.append_inj_right hfl
          (by rw [uuidBytes_length, uuidBytes_length])
      have := ih ys (fun u hu => h1 u (List.mem_cons_of_mem _ hu))
        (fun u hu => h2 u (List.mem_cons_of_mem _ hu))
        (by simpa using hlen) hrest
      rw [hxy, this]

theorem availBytes_inj (a b : Option Bool) (h : availBytes a = availBytes b) :
    a = b := by
  cases a with
  | none => cases b with
    | none => rfl
    | some bb => cases bb <;> simp [availBytes] at h
  | some ab =>
    cases b with
    | none => cases ab <;> simp [availBytes] at h
    | some bb => cases ab <;> cases bb <;> simp [availBytes] at h <;> rfl

theorem availBytes_length (a : Option Bool) : (availBytes a).length = 1 := by
  cases a with
  | none => rfl
  | some b => cases b <;> rfl

theorem flatten_uuidBytes_length (l : List UUID) :
    (l.map UUID.bytes).flatten.length = 16 * l.length := by
  induction l with
  | nil => rfl
  | cons x xs ih =>
    simp only [List.map_cons, List.flatten_cons, List.length_append,
      uuidBytes_length, ih, List.length_cons]
    omega

/-- C3 (amended): equal normalized requests are fed equal byte buffers
(hence receive equal cache keys); and for each collection (products,
orders, users), two requests that differ only in the offset, only in
the limit (values within uint32 range), only in the availability filter
(products), or only in an id list (well-formed ids, lengths within
uint32 range; for orders both the id list and the user-id list) are fed
different byte buffers, so their keys differ except with negligible
hash-collision probability.  The tag and status lists are excluded:
they are encoded only by element count and raw concatenation, so
distinct tag (or status) lists can yield identical buffers (see the
counterexample). -/
theorem claim_C3_cache_key :
    (∀ r1 r2 : GetProductsRequest, r1.Validate = r2.Validate →
      (r1.Validate).CacheKeyBytes = (r2.Validate).CacheKeyBytes) ∧
    (∀ r1 r2 : GetOrdersRequest, r1.Validate = r2.Validate →
      (r1.Validate).CacheKeyBytes = (r2.Validate).CacheKeyBytes) ∧
    (∀ r1 r2 : GetUsersRequest, r1.Validate = r2.Validate →
      (r1.Validate).CacheKeyBytes = (r2.Validate).CacheKeyBytes) ∧
    (∀ (ids : List UUID) (tags : List ByteStr) (av : Option Bool)
        (lim o1 o2 : Int), 0 ≤ o1 → o1 < 2 ^ 32 → 0 ≤ o2 → o2 < 2 ^ 32 →
      o1 ≠ o2 →
      (GetProductsRequest.mk ids tags av lim o1).CacheKeyBytes ≠
        (GetProductsRequest.mk ids tags av lim o2).CacheKeyBytes) ∧
    (∀ (ids : List UUID) (tags : List ByteStr) (av : Option Bool)
        (l1 l2 off : Int), 0 ≤ l1 → l1 < 2 ^ 32 → 0 ≤ l2 → l2 < 2 ^ 32 →
      l1 ≠ l2 →
      (GetProductsRequest.mk ids tags av l1 off).CacheKeyBytes ≠
        (GetProductsRequest.mk ids tags av l2 off).CacheKeyBytes) ∧
    (∀ (ids : List UUID) (tags : List ByteStr) (a1 a2 : Option Bool)
        (lim off : Int), a1 ≠ a2 →
      (GetProductsRequest.mk ids tags a1 lim off).CacheKeyBytes ≠
        (GetProductsRequest.mk ids tags a2 lim off).CacheKeyBytes) ∧
    (∀ (ids1 ids2 : List UUID) (tags : List ByteStr) (av : Option Bool)
        (lim off : Int), (∀ u ∈ ids1, u.wf) → (∀ u ∈ ids2, u.wf) →
      ((ids1.length : Int) < 2 ^ 32) → ((ids2.length : Int) < 2 ^ 32) →
      ids1 ≠ ids2 →
      (GetProductsRequest.mk ids1 tags av lim off).CacheKeyBytes ≠
        (GetProductsRequest.mk ids2 tags av lim off).CacheKeyBytes) ∧
    (∀ (ids uids : List UUID) (sts : List ByteStr) (lim o1 o2 : Int),
      0 ≤ o1 → o1 < 2 ^ 32 → 0 ≤ o2 → o2 < 2 ^ 32 → o1 ≠ o2 →
      (GetOrdersRequest.mk ids uids sts lim o1).CacheKeyBytes ≠
        (GetOrdersRequest.mk ids uids sts lim o2).CacheKeyBytes) ∧
    (∀ (ids uids : List UUID) (sts : List ByteStr) (l1 l2 off : Int),
      0 ≤ l1 → l1 < 2 ^ 32 → 0 ≤ l2 → l2 < 2 ^ 32 → l1 ≠ l2 →
      (GetOrdersRequest.mk ids uids sts l1 off).CacheKeyBytes ≠
        (GetOrdersRequest.mk ids uids sts l2 off).CacheKeyBytes) ∧
    (∀ (ids1 ids2 uids : List UUID) (sts : List ByteStr) (lim off : Int),
      (∀ u ∈ ids1, u.wf) → (∀ u ∈ ids2, u.wf) →
      ((ids1.length : Int) < 2 ^ 32) → ((ids2.length : Int) < 2 ^ 32) →
      ids1 ≠ ids2 →
      (GetOrdersRequest.mk ids1 uids sts lim off).CacheKeyBytes ≠
        (GetOrdersRequest.mk ids2 uids sts lim off).CacheKeyBytes) ∧
    (∀ (ids uids1 uids2 : List UUID) (sts : List ByteStr) (lim off : Int),
      (∀ u ∈ uids1, u.wf) → (∀ u ∈ uids2, u.wf) →
      ((uids1.length : Int) < 2 ^ 32) → ((uids2.length : Int) < 2 ^ 32) →
      uids1 ≠ uids2 →
      (GetOrdersRequest.mk ids uids1 sts lim off).CacheKeyBytes ≠
        (GetOrdersRequest.mk ids uids2 sts lim off).CacheKeyBytes) ∧
    (∀ (ids : List UUID) (lim o1 o2 : Int),
      0 ≤ o1 → o1 < 2 ^ 32 → 0 ≤ o2 → o2 < 2 ^ 32 → o1 ≠ o2 →
      (GetUsersRequest.mk ids lim o1).CacheKeyBytes ≠
        (GetUsersRequest.mk ids lim o2).CacheKeyBytes) ∧
    (∀ (ids : List UUID) (l1 l2 off : Int),
      0 ≤ l1 → l1 < 2 ^ 32 → 0 ≤ l2 → l2 < 2 ^ 32 → l1 ≠ l2 →
      (GetUsersRequest.mk ids l1 off).CacheKeyBytes ≠
        (GetUsersRequest.mk ids l2 off).CacheKeyBytes) ∧
    (∀ (ids1 ids2 : List UUID) (lim off : Int),
      (∀ u ∈ ids1, u.wf) → (∀ u ∈ ids2, u.wf) →
      ((ids1.length : Int) < 2 ^ 32) → ((ids2.length : Int) < 2 ^ 32) →
      ids1 ≠ ids2 →
      (GetUsersRequest.mk ids1 lim off).CacheKeyBytes ≠
        (GetUsersRequest.mk ids2 lim off).CacheKeyBytes) := by
  refine ⟨?_, ?_, ?_, ?_, ?_, ?_, ?_, ?_, ?_, ?_, ?_, ?_, ?_, ?_⟩
  · intro r1 r2 h; rw [h]
  · intro r1 r2 h; rw [h]
  · intro r1 r2 h; rw [h]
  · intro ids tags av lim o1 o2 h1 h2 h3 h4 hne h
    simp only [GetProductsRequest.CacheKeyBytes] at h
    have h := List.append_cancel_left h
    exact hne (u32_inj o1 o2 h1 h2 h3 h4 h)
  · intro ids tags av l1 l2 off h1 h2 h3 h4 hne h
    simp only [GetProductsRequest.CacheKeyBytes] at h
    have h := List.append_cancel_right h
    have h := List.append_cancel_left h
    exact hne (u32_inj l1 l2 h1 h2 h3 h4 h)
  · intro ids tags a1 a2 lim off hne h
    simp only [GetProductsRequest.CacheKeyBytes] at h
    have h := List.append_cancel_right h
    have h := List.append_cancel_right h
    have h := List.append_cancel_left h
    exact hne (availBytes_inj a1 a2 h)
  · intro ids1 ids2 tags av lim off hw1 hw2 hb1 hb2 hne h
    simp only [GetProductsRequest.CacheKeyBytes] at h
    have h := List.append_cancel_right h
    have h := List.append_cancel_right h
    have h := List.append_cancel_right h
    have h := List.append_cancel_right h
    have h := List.append_cancel_right h
    have hlen12 : ids1.length = ids2.length := by
      have h0 := List.append_inj_left h (by rw [u32_length, u32_length])
      have h1 := u32_inj _ _ (Int.natCast_nonneg _) hb1
        (Int.natCast_nonneg _) hb2 h0
      exact_mod_cast h1
    rw [hlen12] at h
    have h := List.append_cancel_left h
    exact hne (flatten_uuidBytes_inj ids1 ids2 hw1 hw2 hlen12 h)
  · intro ids uids sts lim o1 o2 h1 h2 h3 h4 hne h
    simp only [GetOrdersRequest.CacheKeyBytes] at h
    have h := List.append_cancel_left h
    exact hne (u32_inj o1 o2 h1 h2 h3 h4 h)
  · intro ids uids sts l1 l2 off h1 h2 h3 h4 hne h
    simp only [GetOrdersRequest.CacheKeyBytes] at h
    have h := List.append_cancel_right h
    have h := List.append_cancel_left h
    exact hne (u32_inj l1 l2 h1 h2 h3 h4 h)
  · intro ids1 ids2 uids sts lim off hw1 hw2 hb1 hb2 hne h
    simp only [GetOrdersRequest.CacheKeyBytes] at h
    have h := List.append_cancel_right h
    have h := List.append_cancel_right h
    have h := List.append_cancel_right h
    have h := List.append_cancel_right h
    have h := List.append_cancel_right h
    have h := List.append_cancel_right h
    have hlen12 : ids1.length = ids2.length := by
      have h0 := List.append_inj_left h (by rw [u32_length, u32_length])
      have h1 := u32_inj _ _ (Int.natCast_nonneg _) hb1
        (Int.natCast_nonneg _) hb2 h0
      exact_mod_cast h1
    rw [hlen12] at h
    have h := List.append_cancel_left h
    exact hne (flatten_uuidBytes_inj ids1 ids2 hw1 hw2 hlen12 h)
  · intro ids uids1 uids2 sts lim off hw1 hw2 hb1 hb2 hne h
    simp only [GetOrdersRequest.CacheKeyBytes] at h
    have h := List.append_cancel_right h
    have h := List.append_cancel_right h
    have h := List.append_cancel_right h
    have h := List.append_cancel_right h
    have hL := List.append_inj_left h
      (by simp [List.length_append, u32_length])
    have hR := List.append_inj_right h
      (by simp [List.length_append, u32_length])
    have hlen12 : uids1.length = uids2.length := by
      have h0 := List.append_cancel_left hL
      have h1 := u32_inj _ _ (Int.natCast_nonneg _) hb1
        (Int.natCast_nonneg _) hb2 h0
      exact_mod_cast h1
    exact hne (flatten_uuidBytes_inj uids1 uids2 hw1 hw2 hlen12 hR)
  · intro ids lim o1 o2 h1 h2 h3 h4 hne h
    simp only [GetUsersRequest.CacheKeyBytes] at h
    have h := List.append_cancel_left h
    exact hne (u32_inj o1 o2 h1 h2 h3 h4 h)
  · intro ids l1 l2 off h1 h2 h3 h4 hne h
    simp only [GetUsersRequest.CacheKeyBytes] at h
    have h := List.append_cancel_right h
    have h := List.append_cancel_left h
    exact hne (u32_inj l1 l2 h1 h2 h3 h4 h)
  · intro ids1 ids2 lim off hw1 hw2 hb1 hb2 hne h
    simp only [GetUsersRequest.CacheKeyBytes] at h
    have h := List.append_cancel_right h
    have h := List.append_cancel_right h
    have hlen12 : ids1.length = ids2.length := by
      have h0 := List.append_inj_left h (by rw [u32_length, u32_length])
      have h1 := u32_inj _ _ (Int.natCast_nonneg _) hb1
        (Int.natCast_nonneg _) hb2 h0
      exact_mod_cast h1
    rw [hlen12] at h
    have h := List.append_cancel_left h
    exact hne (flatten_uuidBytes_inj ids1 ids2 hw1 hw2 hlen12 h)

theorem claim_C3_witness :
    (GetProductsRequest.mk [] [] none 10 0).CacheKeyBytes ≠
      (GetProductsRequest.mk [] [] none 10 10).CacheKeyBytes ∧
    (GetOrdersRequest.mk [] [] [] 10 0).CacheKeyBytes ≠
      (GetOrdersRequest.mk [] [] [] 10 10).CacheKeyBytes ∧
    (GetUsersRequest.mk [] 10 0).CacheKeyBytes ≠
      (GetUsersRequest.mk [] 10 10).CacheKeyBytes ∧
    (GetUsersRequest.mk [⟨3⟩] 10 0).CacheKeyBytes ≠
      (GetUsersRequest.mk [⟨4⟩] 10 0).CacheKeyBytes :=
  ⟨claim_C3_cache_key.2.2.2.1 [] [] none 10 0 10 (by norm_num) (by norm_num)
      (by norm_num) (by norm_num) (by norm_num),
   claim_C3_cache_key.2.2.2.2.2.2.2.1 [] [] [] 10 0 10 (by norm_num)
      (by norm_num) (by norm_num) (by norm_num) (by norm_num),
   claim_C3_cache_key.2.2.2.2.2.2.2.2.2.2.2.1 [] 10 0 10 (by norm_num)
      (by norm_num) (by norm_num) (by norm_num) (by norm_num),
   claim_C3_cache_key.2.2.2.2.2.2.2.2.2.2.2.2.2 [⟨3⟩] [⟨4⟩] 10 0
      (by intro u hu; simp only [List.mem_singleton] at hu; rw [hu]; norm_num [UUID.wf])
      (by intro u hu; simp only [List.mem_singleton] at hu; rw [hu]; norm_num [UUID.wf])
      (by norm_num) (by norm_num) (by decide)⟩

/-- C3 counterexample to the unamended claim: two normalized product
requests that differ in their tag lists are fed the same byte buffer
(the tag encoding is count plus raw concatenation), so they receive the
same cache key. -/
theorem claim_C3_counterexample :
    (GetProductsRequest.mk [] [[97, 98], [99]] none 10 0).Validate =
      GetProductsRequest.mk [] [[97, 98], [99]] none 10 0 ∧
    (GetProductsRequest.mk [] [[97], [98, 99]] none 10 0).Validate =
      GetProductsRequest.mk [] [[97], [98, 99]] none 10 0 ∧
    GetProductsRequest.mk [] [[97, 98], [99]] none 10 0 ≠
      GetProductsRequest.mk [] [[97], [98, 99]] none 10 0 ∧
    (GetProductsRequest.mk [] [[97, 98], [99]] none 10 0).CacheKeyBytes =
      (GetProductsRequest.mk [] [[97], [98, 99]] none 10 0).CacheKeyBytes :=
  ⟨by decide, by decide, by decide, by decide⟩
